import Mathlib

/-!
Shallow embedding of the rule-resolution and node-stepping core of the
engine (src/rust/engine/src: core.rs, tasks.rs, nodes.rs), together with theorems
settling the specification claims about it.

Machine details abstracted: a Digest is a 32-byte content hash whose only
observable operation here is byte-wise equality, so it is embedded as a
wrapped Nat; host-bridge callbacks (issubclass, project_multi, store_list,
to_str) are embedded as function-valued fields of the registry/context,
matching how nodes.rs reads them off its Tasks value. Rust panic sites
(the TODO branches of nodes.rs) are embedded as the error case of an
Except String result, carrying the panic message.
-/

namespace Engine

/-- Digest (core.rs): identity of a host value, type or function. Only
byte-wise equality is observable in the stepping core, so the 32-byte
array is abstracted to a single Nat. -/
structure Digest where
  val : Nat
deriving DecidableEq, Repr

/-- TypeId (core.rs): the type of a host object, as a Digest. -/
abbrev TypeId := Digest

/-- Function (core.rs): an identifier for a host-side callable. -/
abbrev Function := Digest

/-- TypeConstraint (tasks.rs draft): in the authoritative nodes.rs draft
product constraints are plain TypeIds. -/
abbrev TypeConstraint := TypeId

/-- Key (core.rs): a handle to a host value together with its type. -/
structure Key where
  digest : Digest
  type_id : TypeId
deriving DecidableEq, Repr

/-- Field (core.rs): the name of a field. -/
abbrev Field := Key

/-- Variants (core.rs): an ordered association list of field pairs. -/
abbrev Variants := List (Field × Field)

namespace selectors

/-- selectors::Select, reconstructed from its construction site
Tasks::add_select and its uses in nodes.rs. -/
structure Select where
  product : TypeId
  variant_key : Option Field
deriving DecidableEq, Repr

/-- selectors::SelectLiteral (see Tasks::add_select_literal). -/
structure SelectLiteral where
  subject : Key
  product : TypeId
deriving DecidableEq, Repr

/-- selectors::SelectDependencies (see Tasks::add_select_dependencies). -/
structure SelectDependencies where
  product : TypeId
  dep_product : TypeId
  field : Field
  transitive : Bool
deriving DecidableEq, Repr

/-- selectors::SelectProjection (see Tasks::add_select_projection). -/
structure SelectProjection where
  product : TypeId
  projected_subject : TypeId
  field : Field
  input_product : TypeId
deriving DecidableEq, Repr

end selectors

/-- selectors::Selector: the tagged union of selectors. The Task variant
carries its fields inline because its clause nests the Selector type
itself (selectors::Task in the source). -/
inductive Selector where
  | Select (s : selectors.Select)
  | SelectLiteral (s : selectors.SelectLiteral)
  | SelectDependencies (s : selectors.SelectDependencies)
  | SelectProjection (s : selectors.SelectProjection)
  | Task (cacheable : Bool) (product : TypeId) (clause : List Selector) (func : Function)

/-- selectors::Task as a record, for the registry and for Task nodes. -/
structure TaskSel where
  cacheable : Bool
  product : TypeId
  clause : List Selector
  func : Function

/-- Rebuilds the Selector::Task variant from a TaskSel record. -/
def Selector.task (t : TaskSel) : Selector :=
  Selector.Task t.cacheable t.product t.clause t.func

/-- Selector::select(product): a Select selector with no variant key
(used by nodes.rs to request dep products and variants). -/
def Selector.select (product : TypeId) : Selector :=
  Selector.Select ⟨product, none⟩

/-- nodes.rs Select node. -/
structure Select where
  subject : Key
  variants : Variants
  selector : selectors.Select

/-- nodes.rs SelectLiteral node. -/
structure SelectLiteral where
  subject : Key
  variants : Variants
  selector : selectors.SelectLiteral

/-- nodes.rs SelectDependencies node. -/
structure SelectDependencies where
  subject : Key
  variants : Variants
  selector : selectors.SelectDependencies

/-- nodes.rs ProjectField node. -/
structure ProjectField where
  subject : Key
  variants : Variants
  selector : selectors.SelectProjection

/-- nodes.rs SelectProjection node. -/
structure SelectProjection where
  subject : Key
  variants : Variants
  selector : selectors.SelectProjection

/-- nodes.rs Task node. -/
structure Task where
  subject : Key
  product : TypeId
  variants : Variants
  selector : TaskSel

/-- nodes.rs Node: the tagged union of node variants. -/
inductive Node where
  | Select (n : Select)
  | SelectLiteral (n : SelectLiteral)
  | SelectDependencies (n : SelectDependencies)
  | ProjectField (n : ProjectField)
  | SelectProjection (n : SelectProjection)
  | Task (n : Task)

/-- nodes.rs Complete: terminal result of a node. -/
inductive Complete where
  | Noop (reason : String) (cause : Option Node)
  | Return (value : Key)
  | Throw (msg : String)

/-- nodes.rs Arg: either a literal Key or a reference to a Node. -/
inductive Arg where
  | Value (k : Key)
  | Node (n : Node)

/-- nodes.rs Runnable: a host function call description. -/
structure Runnable where
  func : Function
  args : List Arg
  cacheable : Bool

/-- nodes.rs State: the output of a step. -/
inductive State where
  | Waiting (deps : List Node)
  | Complete (c : Complete)
  | Runnable (r : Runnable)

/-- Association-list get, the embedding of HashMap::get for the
registry maps (key types have decidable equality). -/
def alistGet {α β : Type} [BEq α] (l : List (α × β)) (k : α) : Option β :=
  (l.find? (fun p => p.1 == k)).map Prod.snd

/-- tasks.rs Tasks: the rule registry, the fixed fields and types the
core needs, and the host bridge callbacks nodes.rs reads off it. -/
structure Tasks where
  intrinsics : List ((TypeId × TypeConstraint) × List TaskSel)
  tasks : List (TypeConstraint × List TaskSel)
  issubclass : TypeId → TypeId → Bool
  store_list : List Key → Key
  project_multi : Key → Field → List Key
  project : Function
  field_name : Field
  field_products : Field
  field_variants : Field
  type_address : TypeConstraint
  type_has_products : TypeConstraint
  type_has_variants : TypeConstraint
  preparing : Option TaskSel

/-- Tasks::gen_tasks: intrinsics for the exact (subject type, product)
pair if present, otherwise the tasks entry for the product. -/
def Tasks.gen_tasks (t : Tasks) (subject_type : TypeId) (product : TypeConstraint) :
    Option (List TaskSel) :=
  match alistGet t.intrinsics (subject_type, product) with
  | some ts => some ts
  | none => alistGet t.tasks product

/-- nodes.rs StepContext: the completions of already-known dependencies
(HashMap::get embedded as a function to Option), the registry, and the
to_str debug callback. -/
structure StepContext where
  deps : Node → Option Complete
  tasks : Tasks
  to_str : Digest → String

/-- Node::create. -/
def Node.create : Selector → Key → Variants → Node
  | Selector.Select s, subject, variants =>
    Node.Select ⟨subject, variants, s⟩
  | Selector.SelectLiteral s, _, variants =>
    Node.SelectLiteral ⟨s.subject, variants, s⟩
  | Selector.SelectDependencies s, subject, variants =>
    Node.SelectDependencies ⟨subject, variants, s⟩
  | Selector.SelectProjection s, subject, variants =>
    Node.SelectProjection ⟨subject, variants, s⟩
  | Selector.Task c p cl f, subject, variants =>
    Node.Task ⟨subject, p, variants, ⟨c, p, cl, f⟩⟩

/-- Node::format: debug rendering of a node kind. -/
def Node.format (n : Node) (to_str : Digest → String) : String :=
  match n with
  | Node.Select _ => "Select"
  | Node.SelectLiteral _ => "Literal"
  | Node.SelectDependencies _ => "Dependencies"
  | Node.ProjectField _ => "ProjectField"
  | Node.SelectProjection _ => "Projection"
  | Node.Task t => "Task(" ++ to_str t.selector.func ++ ")"

namespace StepContext

/-- StepContext::gen_nodes: a Task node per candidate rule. -/
def gen_nodes (ctx : StepContext) (subject : Key) (product : TypeId) (variants : Variants) :
    List Node :=
  match ctx.tasks.gen_tasks subject.type_id product with
  | some ts => ts.map (fun t => Node.Task ⟨subject, product, variants, t⟩)
  | none => []

/-- StepContext::get. -/
def get (ctx : StepContext) (node : Node) : Option Complete :=
  ctx.deps node

/-- StepContext::type_address. -/
def type_address (ctx : StepContext) : TypeId :=
  ctx.tasks.type_address

/-- StepContext::type_has_variants. -/
def type_has_variants (ctx : StepContext) : TypeId :=
  ctx.tasks.type_has_variants

/-- StepContext::isinstance: true without a host call when the TypeIds
are equal, otherwise the host issubclass answer. -/
def isinstance (ctx : StepContext) (item : Key) (superclass : TypeId) : Bool :=
  if item.type_id == superclass then
    true
  else
    ctx.tasks.issubclass item.type_id superclass

/-- StepContext::has_products. -/
def has_products (ctx : StepContext) (item : Key) : Bool :=
  ctx.isinstance item ctx.tasks.type_has_products

/-- StepContext::field_name: an unimplemented panic in the source. -/
def field_name (_ctx : StepContext) (_item : Key) : Except String Key :=
  Except.error "TODO: Not implemented"

/-- StepContext::field_products: an unimplemented panic in the source. -/
def field_products (_ctx : StepContext) (_item : Key) : Except String (List Key) :=
  Except.error "TODO: Not implemented"

/-- StepContext::store_list. -/
def store_list (ctx : StepContext) (items : List Key) : Key :=
  ctx.tasks.store_list items

/-- StepContext::project: the Runnable that asks the host to project. -/
def project (ctx : StepContext) (item : Key) (f : Field) : Runnable :=
  ⟨ctx.tasks.project, [Arg.Value item, Arg.Value f], true⟩

/-- StepContext::project_multi. -/
def project_multi (ctx : StepContext) (item : Key) (f : Field) : List Key :=
  ctx.tasks.project_multi item f

end StepContext

namespace Select

/-- Select::product. -/
def product (self : Select) : TypeId :=
  self.selector.product

/-- Select::select_literal_single: is-a test plus the variant-name test.
The variant-name test projects field_name, which panics in the source. -/
def select_literal_single (self : Select) (ctx : StepContext) (candidate : Key)
    (variant_value : Option Key) : Except String (Option Key) :=
  if !ctx.isinstance candidate self.selector.product then
    Except.ok none
  else
    match variant_value with
    | some vv =>
      match ctx.field_name candidate with
      | Except.error msg => Except.error msg
      | Except.ok n =>
        if n != vv then Except.ok none else Except.ok (some candidate)
    | none => Except.ok (some candidate)

/-- The for-loop of Select::select_literal over field_products children:
the first child passing select_literal_single. -/
def select_first_child (self : Select) (ctx : StepContext) (variant_value : Option Key) :
    List Key → Except String (Option Key)
  | [] => Except.ok none
  | child :: rest =>
    match self.select_literal_single ctx child variant_value with
    | Except.error msg => Except.error msg
    | Except.ok (some c) => Except.ok (some c)
    | Except.ok none => self.select_first_child ctx variant_value rest

/-- Select::select_literal: is-a match, else has-a match through the
products field (whose projection panics in the source). -/
def select_literal (self : Select) (ctx : StepContext) (candidate : Key)
    (variant_value : Option Key) : Except String (Option Key) :=
  match self.select_literal_single ctx candidate variant_value with
  | Except.error msg => Except.error msg
  | Except.ok (some c) => Except.ok (some c)
  | Except.ok none =>
    if ctx.has_products candidate then
      match ctx.field_products candidate with
      | Except.error msg => Except.error msg
      | Except.ok children => self.select_first_child ctx variant_value children
    else
      Except.ok none

/-- The task-match loop of Select::step: gathers missing dependencies and
literal-passing matches over the generated Task nodes, then decides
Waiting, conflict Throw, Return or Noop exactly as the source does. -/
def task_phase (self : Select) (ctx : StepContext) (variant_value : Option Key) :
    List Node → List Node → List Key → Except String State
  | [], dependencies, ms =>
    if !dependencies.isEmpty then
      Except.ok (State.Waiting dependencies)
    else if ms.length > 1 then
      Except.ok (State.Complete (Complete.Throw "Conflicting values produced for subject and type."))
    else
      match ms.getLast? with
      | some matched => Except.ok (State.Complete (Complete.Return matched))
      | none =>
        Except.ok (State.Complete (Complete.Noop "No task was available to compute the value." none))
  | dep_node :: rest, dependencies, ms =>
    match ctx.get dep_node with
    | some (Complete.Return value) =>
      match self.select_literal ctx value variant_value with
      | Except.error msg => Except.error msg
      | Except.ok (some v) => self.task_phase ctx variant_value rest dependencies (ms ++ [v])
      | Except.ok none => self.task_phase ctx variant_value rest dependencies ms
    | some (Complete.Noop _ _) => self.task_phase ctx variant_value rest dependencies ms
    | some (Complete.Throw msg) => Except.ok (State.Complete (Complete.Throw msg))
    | none => self.task_phase ctx variant_value rest (dependencies ++ [dep_node]) ms

/-- The part of Select::step after the variant gate has produced the
required variant value: literal match, else the task-match phase. -/
def step_with_variant_value (self : Select) (ctx : StepContext) (variant_value : Option Key) :
    Except String State :=
  match self.select_literal ctx self.subject variant_value with
  | Except.error msg => Except.error msg
  | Except.ok (some literal_value) => Except.ok (State.Complete (Complete.Return literal_value))
  | Except.ok none =>
    self.task_phase ctx variant_value
      (ctx.gen_nodes self.subject self.selector.product self.variants) [] []

/-- The variant gate of Select::step: with a variant_key, linear lookup
in the in-scope variants (first binding wins); absent key is a Noop. -/
def step_with_variants (self : Select) (ctx : StepContext) (variants : Variants) :
    Except String State :=
  match self.selector.variant_key with
  | some variant_key =>
    match (variants.find? (fun p => p.1 == variant_key)).map Prod.snd with
    | none =>
      Except.ok (State.Complete
        (Complete.Noop "A matching variant key was not configured in variants." none))
    | some v => self.step_with_variant_value ctx (some v)
  | none => self.step_with_variant_value ctx none

/-- The node requesting declared variants for the subject. -/
def variants_node (self : Select) (ctx : StepContext) : Node :=
  Node.create (Selector.select ctx.type_has_variants) self.subject self.variants

/-- Select::step: variant-propagation phase (merging panics in the
source), then the variant gate and the remaining phases. -/
def step (self : Select) (ctx : StepContext) : Except String State :=
  if self.subject.type_id == ctx.type_address && self.selector.product != ctx.type_has_variants then
    match ctx.get (self.variants_node ctx) with
    | some (Complete.Return _) => Except.error "TODO: merging variants is not yet implemented"
    | some (Complete.Noop _ _) => self.step_with_variants ctx self.variants
    | some (Complete.Throw msg) => Except.ok (State.Complete (Complete.Throw msg))
    | none => Except.ok (State.Waiting [self.variants_node ctx])
  else
    self.step_with_variants ctx self.variants

end Select

/-- SelectLiteral::step: unconditionally returns the literal subject. -/
def SelectLiteral.step (self : SelectLiteral) (_ctx : StepContext) : Except String State :=
  Except.ok (State.Complete (Complete.Return self.selector.subject))

namespace SelectDependencies

/-- SelectDependencies::product. -/
def product (self : SelectDependencies) : TypeId :=
  self.selector.product

/-- The node requesting the dep_product for the subject. -/
def dep_product_node (self : SelectDependencies) : Node :=
  Node.create (Selector.select self.selector.dep_product) self.subject self.variants

/-- The Select node for one projected dependency subject. -/
def dep_node (self : SelectDependencies) (dep_subject : Key) : Node :=
  Node.create (Selector.select self.selector.product) dep_subject self.variants

/-- The for-loop of SelectDependencies::step over the projected
dependency subjects, with its Waiting/store_list decision. -/
def deps_loop (self : SelectDependencies) (ctx : StepContext) :
    List Node → List Node → List Key → Except String State
  | [], dependencies, dep_values =>
    if dependencies.length > 0 then
      Except.ok (State.Waiting dependencies)
    else
      Except.ok (State.Complete (Complete.Return (ctx.store_list dep_values)))
  | dn :: rest, dependencies, dep_values =>
    match ctx.get dn with
    | some (Complete.Return value) => self.deps_loop ctx rest dependencies (dep_values ++ [value])
    | some (Complete.Noop _ _) =>
      Except.ok (State.Complete
        (Complete.Throw ("No source of explicit dep " ++ dn.format ctx.to_str)))
    | some (Complete.Throw msg) => Except.ok (State.Complete (Complete.Throw msg))
    | none => self.deps_loop ctx rest (dependencies ++ [dn]) dep_values

/-- SelectDependencies::step. -/
def step (self : SelectDependencies) (ctx : StepContext) : Except String State :=
  match ctx.get self.dep_product_node with
  | some (Complete.Return value) =>
    self.deps_loop ctx ((ctx.project_multi value self.selector.field).map self.dep_node) [] []
  | some (Complete.Noop _ _) =>
    Except.ok (State.Complete
      (Complete.Noop "Could not compute \x7b\x7d to determine deps." (some self.dep_product_node)))
  | some (Complete.Throw msg) => Except.ok (State.Complete (Complete.Throw msg))
  | none => Except.ok (State.Waiting [self.dep_product_node])

end SelectDependencies

namespace ProjectField

/-- The node requesting the input product for the projection. -/
def input_node (self : ProjectField) : Node :=
  Node.create (Selector.select self.selector.input_product) self.subject self.variants

/-- ProjectField::step. -/
def step (self : ProjectField) (ctx : StepContext) : Except String State :=
  match ctx.get self.input_node with
  | some (Complete.Return value) =>
    Except.ok (State.Runnable (ctx.project value self.selector.field))
  | some (Complete.Noop _ _) =>
    Except.ok (State.Complete
      (Complete.Noop "Could not compute \x7b\x7d to project its field." (some self.input_node)))
  | some (Complete.Throw msg) => Except.ok (State.Complete (Complete.Throw msg))
  | none => Except.ok (State.Waiting [self.input_node])

end ProjectField

namespace SelectProjection

/-- The inner ProjectField node of a SelectProjection. -/
def input_node (self : SelectProjection) : Node :=
  Node.ProjectField ⟨self.subject, self.variants, self.selector⟩

/-- The outer Select node on the projected subject. -/
def output_node (self : SelectProjection) (projected_subject : Key) : Node :=
  Node.create (Selector.select self.selector.product) projected_subject self.variants

/-- SelectProjection::step. -/
def step (self : SelectProjection) (ctx : StepContext) : Except String State :=
  match ctx.get self.input_node with
  | some (Complete.Return projected_subject) =>
    match ctx.get (self.output_node projected_subject) with
    | some (Complete.Return value) => Except.ok (State.Complete (Complete.Return value))
    | some (Complete.Noop _ _) =>
      Except.ok (State.Complete
        (Complete.Throw ("No source of projected dependency "
          ++ (self.output_node projected_subject).format ctx.to_str)))
    | some (Complete.Throw msg) => Except.ok (State.Complete (Complete.Throw msg))
    | none => Except.ok (State.Waiting [self.output_node projected_subject])
  | some (Complete.Noop _ _) =>
    Except.ok (State.Complete
      (Complete.Noop "Could not compute \x7b\x7d to project its field." (some self.input_node)))
  | some (Complete.Throw msg) => Except.ok (State.Complete (Complete.Throw msg))
  | none => Except.ok (State.Waiting [self.input_node])

end SelectProjection

namespace Task

/-- The dependency node of one clause selector of a Task node. -/
def clause_node (self : Task) (selector : Selector) : Node :=
  Node.create selector self.subject self.variants

/-- The for-loop of Task::step over the clause selectors, with its
Waiting/Runnable decision. -/
def clause_loop (self : Task) (ctx : StepContext) :
    List Selector → List Node → List Key → Except String State
  | [], dependencies, dep_values =>
    if !dependencies.isEmpty then
      Except.ok (State.Waiting dependencies)
    else
      Except.ok (State.Runnable
        ⟨self.selector.func, dep_values.map Arg.Value, self.selector.cacheable⟩)
  | selector :: rest, dependencies, dep_values =>
    match ctx.get (self.clause_node selector) with
    | some (Complete.Return value) => self.clause_loop ctx rest dependencies (dep_values ++ [value])
    | some (Complete.Noop _ _) =>
      Except.ok (State.Complete
        (Complete.Noop "Was missing (at least) input \x7b\x7d." (some (self.clause_node selector))))
    | some (Complete.Throw msg) => Except.ok (State.Complete (Complete.Throw msg))
    | none => self.clause_loop ctx rest (dependencies ++ [self.clause_node selector]) dep_values

/-- Task::step. -/
def step (self : Task) (ctx : StepContext) : Except String State :=
  self.clause_loop ctx self.selector.clause [] []

end Task

/-- Node::step: dispatch on the node kind. -/
def Node.step (n : Node) (ctx : StepContext) : Except String State :=
  match n with
  | Node.Select x => x.step ctx
  | Node.SelectDependencies x => x.step ctx
  | Node.SelectLiteral x => x.step ctx
  | Node.ProjectField x => x.step ctx
  | Node.SelectProjection x => x.step ctx
  | Node.Task x => x.step ctx

/-- The direct dependency nodes of a node under a given completion map:
exactly the dependency nodes the matching step function constructs and
may consult, read off the source of each step (the SelectDependencies
and SelectProjection second-stage nodes exist only once the first-stage
dependency has returned). -/
def Node.direct_deps (n : Node) (ctx : StepContext) : List Node :=
  match n with
  | Node.Select s =>
    (if s.subject.type_id == ctx.type_address && s.selector.product != ctx.type_has_variants then
      [s.variants_node ctx]
    else
      [])
    ++ ctx.gen_nodes s.subject s.selector.product s.variants
  | Node.SelectLiteral _ => []
  | Node.SelectDependencies s =>
    s.dep_product_node ::
      (match ctx.get s.dep_product_node with
        | some (Complete.Return value) => (ctx.project_multi value s.selector.field).map s.dep_node
        | _ => [])
  | Node.ProjectField p => [p.input_node]
  | Node.SelectProjection s =>
    s.input_node ::
      (match ctx.get s.input_node with
        | some (Complete.Return ps) => [s.output_node ps]
        | _ => [])
  | Node.Task t => t.selector.clause.map t.clause_node

/-- Nodes of a dependency list whose completion is missing from the map,
in order. -/
def missingOf (ctx : StepContext) (l : List Node) : List Node :=
  l.filter (fun d => (ctx.get d).isNone)

/-- The Return values of a dependency list, in order. -/
def returnsOf (ctx : StepContext) (l : List Node) : List Key :=
  l.filterMap (fun d =>
    match ctx.get d with
    | some (Complete.Return v) => some v
    | _ => none)

/-- The gathered task-match values of Select::step: the Return values of
the candidate Task nodes that pass the literal-variant test. -/
def Select.matchesOf (self : Select) (ctx : StepContext) (variant_value : Option Key)
    (l : List Node) : List Key :=
  l.filterMap (fun d =>
    match ctx.get d with
    | some (Complete.Return v) => ((self.select_literal ctx v variant_value).toOption).join
    | _ => none)

/-- The variant-propagation phase of Select::step resolves without
changing the variants: either the phase is not triggered (the subject is
not an address, or the product is the variants type), or the variants
sub-select completed as Noop. -/
def Select.variants_phase_benign (self : Select) (ctx : StepContext) : Prop :=
  ¬ (self.subject.type_id = ctx.type_address ∧ self.selector.product ≠ ctx.type_has_variants) ∨
  ∃ r c, ctx.get (self.variants_node ctx) = some (Complete.Noop r c)

/-- The final decision of the task-match loop of Select::step (its base
case): wait on missing dependencies, throw on more than one match,
return a single match, and Noop with no match. -/
def Select.task_decision (dependencies : List Node) (ms : List Key) : Except String State :=
  if !dependencies.isEmpty then
    Except.ok (State.Waiting dependencies)
  else if ms.length > 1 then
    Except.ok (State.Complete (Complete.Throw "Conflicting values produced for subject and type."))
  else
    match ms.getLast? with
    | some matched => Except.ok (State.Complete (Complete.Return matched))
    | none =>
      Except.ok (State.Complete (Complete.Noop "No task was available to compute the value." none))

/-- The variant gate of a Select resolves to the given required variant
value: no variant key and no value, or a key whose first binding in the
node variants is the value. -/
def Select.gate_resolves (self : Select) (vv : Option Key) : Prop :=
  (self.selector.variant_key = none ∧ vv = none) ∨
  (∃ k kv v, self.selector.variant_key = some k ∧
    self.variants.find? (fun p => p.1 == k) = some (kv, v) ∧ vv = some v)

/-! Concrete fixtures used by witnesses and counterexamples. -/

/-- Fixture: the registry type_address constraint. -/
def dA : Digest := ⟨100⟩

/-- Fixture: the registry type_has_products constraint. -/
def dHP : Digest := ⟨101⟩

/-- Fixture: the registry type_has_variants constraint. -/
def dHV : Digest := ⟨102⟩

/-- Fixture: an ordinary host type. -/
def dT : Digest := ⟨1⟩

/-- Fixture: a product type. -/
def dP : Digest := ⟨2⟩

/-- Fixture: another product type. -/
def dQ : Digest := ⟨3⟩

/-- Fixture: the interned list Key returned by the store_list bridge. -/
def kList : Key := ⟨⟨90⟩, ⟨91⟩⟩

/-- Fixture: a registry over the fixed constraint fixtures, with the
given rule maps, issubclass answer and project_multi answer. -/
def mkTasks (intr : List ((TypeId × TypeConstraint) × List TaskSel))
    (tks : List (TypeConstraint × List TaskSel))
    (issub : TypeId → TypeId → Bool) (pm : Key → Field → List Key) : Tasks :=
  ⟨intr, tks, issub, fun _ => kList, pm, ⟨60⟩, ⟨⟨70⟩, ⟨71⟩⟩, ⟨⟨72⟩, ⟨73⟩⟩, ⟨⟨74⟩, ⟨75⟩⟩,
    dA, dHP, dHV, none⟩

/-- Fixture: a step context from a completion map and a registry. -/
def mkCtx (deps : Node → Option Complete) (t : Tasks) : StepContext :=
  ⟨deps, t, fun _ => "f"⟩

/-- Fixture: a subject of the ordinary type dT. -/
def kSub : Key := ⟨⟨10⟩, dT⟩

/-- Fixture: a subject whose type is the address type. -/
def kAddrSub : Key := ⟨⟨11⟩, dA⟩

/-- Fixture: a subject whose type is the product type dP. -/
def kSubP : Key := ⟨⟨12⟩, dP⟩

/-- Fixture: a clause-free task rule producing dP. -/
def taskQ : TaskSel := ⟨true, dP, [], ⟨50⟩⟩

/-- Fixture: a second clause-free task rule producing dP. -/
def taskR : TaskSel := ⟨true, dP, [], ⟨51⟩⟩

/-- Fixture: a field to project dependencies from. -/
def fld : Field := ⟨⟨40⟩, ⟨41⟩⟩

/-- Fixture: a dep_product value of type dQ. -/
def kDep : Key := ⟨⟨13⟩, dQ⟩

/-- Fixture: first projected dependency subject. -/
def kC1 : Key := ⟨⟨14⟩, dT⟩

/-- Fixture: second projected dependency subject. -/
def kC2 : Key := ⟨⟨15⟩, dT⟩

/-- Fixture: the product value selected for kC1. -/
def vC1 : Key := ⟨⟨16⟩, dP⟩

/-- Fixture: the product value selected for kC2. -/
def vC2 : Key := ⟨⟨17⟩, dP⟩

/-- Fixture: context for the C4 counterexample: the single candidate
task returned a value of the product type while a variant value is
required, which sends the literal test into the unimplemented name
projection. -/
def ctxC4 : StepContext :=
  mkCtx
    (fun n => match n with
      | Node.Task _ => some (Complete.Return vC1)
      | _ => none)
    (mkTasks [] [(dP, [taskQ])] (fun _ _ => false) (fun _ _ => []))

/-- Fixture: registry whose project_multi answers [kC1, kC2] on the
dep-product value and the dependency field. -/
def tasksC5 : Tasks :=
  mkTasks [] [] (fun _ _ => false)
    (fun k f => if k == kDep && f == fld then [kC1, kC2] else [])

/-- Fixture: a SelectDependencies node selecting dP for each member of
fld on the dQ dep product. -/
def selDepC5 : SelectDependencies := ⟨kSub, [], ⟨dP, dQ, fld, false⟩⟩

/-- Fixture: completions where the dep product and both projected
dependencies returned. -/
def ctxC5 : StepContext :=
  mkCtx
    (fun n => match n with
      | Node.Select s =>
        if s.selector.product == dQ then some (Complete.Return kDep)
        else if s.subject == kC1 then some (Complete.Return vC1)
        else some (Complete.Return vC2)
      | _ => none)
    tasksC5

/-- Fixture: completions where the second projected dependency is still
missing. -/
def ctxC5w : StepContext :=
  mkCtx
    (fun n => match n with
      | Node.Select s =>
        if s.selector.product == dQ then some (Complete.Return kDep)
        else if s.subject == kC1 then some (Complete.Return vC1)
        else none
      | _ => none)
    tasksC5

/-- Fixture: a Select on a dP-typed subject for product dP (literal
is-a match by the reflexive isinstance short-circuit). -/
def selCE1 : Select := ⟨kSubP, [], ⟨dP, none⟩⟩

/-- Fixture: the candidate task node generated for selCE1. -/
def genCE1 : Node := Node.Task ⟨kSubP, dP, [], taskQ⟩

/-- Fixture: context mapping every Task node to Throw("boom"), with one
registered rule for dP. -/
def ctxCE1 : StepContext :=
  mkCtx
    (fun n => match n with
      | Node.Task _ => some (Complete.Throw "boom")
      | _ => none)
    (mkTasks [] [(dP, [taskQ])] (fun _ _ => false) (fun _ _ => []))

/-- Fixture: context mapping the dep-product Select to Throw("boom"). -/
def ctxC1w : StepContext :=
  mkCtx
    (fun n => match n with
      | Node.Select s =>
        if s.selector.product == dQ then some (Complete.Throw "boom") else none
      | _ => none)
    tasksC5

/-- Fixture: a Task node with a two-selector clause (products dP then
dQ). -/
def taskCE7 : Task := ⟨kSub, dP, [], ⟨true, dP, [Selector.select dP, Selector.select dQ], ⟨52⟩⟩⟩

/-- Fixture: clause completions for taskCE7 where the dP clause node is
a Noop and the dQ clause node is missing. -/
def ctxCE3 : StepContext :=
  mkCtx
    (fun n => match n with
      | Node.Select s =>
        if s.selector.product == dP then some (Complete.Noop "nope" none) else none
      | _ => none)
    (mkTasks [] [] (fun _ _ => false) (fun _ _ => []))

/-- Fixture: clause completions for taskCE7 where the dP clause node is
a Throw and the dQ clause node is a Noop. -/
def ctxCE7 : StepContext :=
  mkCtx
    (fun n => match n with
      | Node.Select s =>
        if s.selector.product == dP then some (Complete.Throw "boom")
        else some (Complete.Noop "nope" none)
      | _ => none)
    (mkTasks [] [] (fun _ _ => false) (fun _ _ => []))

/-- Fixture: clause completions for taskCE7 where both clause nodes
returned. -/
def ctxW7 : StepContext :=
  mkCtx
    (fun n => match n with
      | Node.Select s =>
        if s.selector.product == dP then some (Complete.Return vC1)
        else some (Complete.Return vC2)
      | _ => none)
    (mkTasks [] [] (fun _ _ => false) (fun _ _ => []))

/-- Fixture: both clause nodes of taskCE7 missing. -/
def ctxW3 : StepContext :=
  mkCtx (fun _ => none) (mkTasks [] [] (fun _ _ => false) (fun _ _ => []))

/-- Fixture: two candidate tasks for dP; the taskQ candidate returned
vC1 and the taskR candidate is missing. -/
def ctxW3s : StepContext :=
  mkCtx
    (fun n => match n with
      | Node.Task t => if t.selector.func == ⟨50⟩ then some (Complete.Return vC1) else none
      | _ => none)
    (mkTasks [] [(dP, [taskQ, taskR])] (fun _ _ => false) (fun _ _ => []))

/-- Fixture: projected-dependency completions where the first projected
dep threw and the second is a Noop. -/
def ctxCE6 : StepContext :=
  mkCtx
    (fun n => match n with
      | Node.Select s =>
        if s.selector.product == dQ then some (Complete.Return kDep)
        else if s.subject == kC1 then some (Complete.Throw "boom")
        else some (Complete.Noop "nope" none)
      | _ => none)
    tasksC5

/-- Fixture: projected-dependency completions where the first projected
dep is a Noop and the second returned. -/
def ctxW6 : StepContext :=
  mkCtx
    (fun n => match n with
      | Node.Select s =>
        if s.selector.product == dQ then some (Complete.Return kDep)
        else if s.subject == kC1 then some (Complete.Noop "nope" none)
        else some (Complete.Return vC2)
      | _ => none)
    tasksC5

/-- Fixture: a SelectProjection selecting dP for the subject projected
out of the dQ input product. -/
def spW6 : SelectProjection := ⟨kSub, [], ⟨dP, dT, fld, dQ⟩⟩

/-- Fixture: completions where the inner ProjectField returned kC1 and
the outer Select on kC1 is a Noop. -/
def ctxW6p : StepContext :=
  mkCtx
    (fun n => match n with
      | Node.ProjectField _ => some (Complete.Return kC1)
      | Node.Select _ => some (Complete.Noop "nope" none)
      | _ => none)
    (mkTasks [] [] (fun _ _ => false) (fun _ _ => []))

/-- Fixture: the variants sub-select of an address-typed subject has
returned, reaching the unimplemented variant merge. -/
def ctxCE2 : StepContext :=
  mkCtx
    (fun n => match n with
      | Node.Select _ => some (Complete.Return kSub)
      | _ => none)
    (mkTasks [] [] (fun _ _ => false) (fun _ _ => []))

/-- Fixture: a registry whose issubclass makes dT a subtype of exactly
the has-products constraint, reaching the unimplemented products
projection. -/
def ctxCE2p : StepContext :=
  mkCtx (fun _ => none)
    (mkTasks [] [] (fun t s => t == dT && s == dHP) (fun _ _ => []))

/-! Phase lemmas about Select::step, shared by several claims. -/

/-- When the variant-propagation phase resolves benignly, Select::step is
the variant gate and later phases over the unchanged variants. -/
theorem Select.step_eq_of_benign (self : Select) (ctx : StepContext)
    (h : self.variants_phase_benign ctx) :
    self.step ctx = self.step_with_variants ctx self.variants := by
  unfold Select.step
  cases hb : (self.subject.type_id == ctx.type_address &&
      self.selector.product != ctx.type_has_variants) with
  | false => simp [hb]
  | true =>
    simp only [hb, if_true]
    rcases h with h | ⟨r, c, hr⟩
    · exfalso
      apply h
      simp only [Bool.and_eq_true, beq_iff_eq, bne_iff_ne] at hb
      exact hb
    · rw [hr]

/-- With no variant key, the gate passes with no required variant value. -/
theorem Select.step_with_variants_none (self : Select) (ctx : StepContext) (vars : Variants)
    (h : self.selector.variant_key = none) :
    self.step_with_variants ctx vars = self.step_with_variant_value ctx none := by
  unfold Select.step_with_variants
  rw [h]

/-- With a variant key that is not bound in the variants, the gate
completes the node as a Noop. -/
theorem Select.step_with_variants_absent (self : Select) (ctx : StepContext) (vars : Variants)
    (k : Field) (h : self.selector.variant_key = some k)
    (hfind : vars.find? (fun p => p.1 == k) = none) :
    self.step_with_variants ctx vars =
      Except.ok (State.Complete
        (Complete.Noop "A matching variant key was not configured in variants." none)) := by
  unfold Select.step_with_variants
  rw [h]
  simp only [hfind, Option.map_none']

/-- With a variant key bound in the variants, the gate passes the found
value as the required variant value. -/
theorem Select.step_with_variants_present (self : Select) (ctx : StepContext) (vars : Variants)
    (k kv v : Field) (h : self.selector.variant_key = some k)
    (hfind : vars.find? (fun p => p.1 == k) = some (kv, v)) :
    self.step_with_variants ctx vars = self.step_with_variant_value ctx (some v) := by
  unfold Select.step_with_variants
  rw [h]
  simp only [hfind, Option.map_some']

/-- A missing head is gathered by missingOf. -/
theorem missingOf_cons_none (ctx : StepContext) (d : Node) (rest : List Node)
    (h : ctx.get d = none) : missingOf ctx (d :: rest) = d :: missingOf ctx rest := by
  simp [missingOf, List.filter_cons, h]

/-- A completed head is skipped by missingOf. -/
theorem missingOf_cons_some (ctx : StepContext) (d : Node) (rest : List Node) (c : Complete)
    (h : ctx.get d = some c) : missingOf ctx (d :: rest) = missingOf ctx rest := by
  simp [missingOf, List.filter_cons, h]

/-- A returned head contributes its value to returnsOf. -/
theorem returnsOf_cons_return (ctx : StepContext) (d : Node) (rest : List Node) (v : Key)
    (h : ctx.get d = some (Complete.Return v)) :
    returnsOf ctx (d :: rest) = v :: returnsOf ctx rest := by
  simp [returnsOf, List.filterMap_cons, h]

/-- A missing head contributes nothing to returnsOf. -/
theorem returnsOf_cons_none (ctx : StepContext) (d : Node) (rest : List Node)
    (h : ctx.get d = none) : returnsOf ctx (d :: rest) = returnsOf ctx rest := by
  simp [returnsOf, List.filterMap_cons, h]

/-- Unfolding of the task-match loop at the empty list: it is exactly
the four-way task decision. -/
theorem Select.task_phase_nil (self : Select) (ctx : StepContext) (vv : Option Key)
    (deps0 : List Node) (ms0 : List Key) :
    self.task_phase ctx vv [] deps0 ms0 = Select.task_decision deps0 ms0 := rfl

/-- Unfolding of the task-match loop at a cons. -/
theorem Select.task_phase_cons (self : Select) (ctx : StepContext) (vv : Option Key)
    (d : Node) (rest deps0 : List Node) (ms0 : List Key) :
    self.task_phase ctx vv (d :: rest) deps0 ms0 =
      (match ctx.get d with
      | some (Complete.Return value) =>
        match self.select_literal ctx value vv with
        | Except.error msg => Except.error msg
        | Except.ok (some v) => self.task_phase ctx vv rest deps0 (ms0 ++ [v])
        | Except.ok none => self.task_phase ctx vv rest deps0 ms0
      | some (Complete.Noop _ _) => self.task_phase ctx vv rest deps0 ms0
      | some (Complete.Throw msg) => Except.ok (State.Complete (Complete.Throw msg))
      | none => self.task_phase ctx vv rest (deps0 ++ [d]) ms0) := rfl

/-- The task-match loop, when no gathered completion is a Throw and
the literal test of every gathered Return value evaluates without panicking,
accumulates exactly the missing dependencies and the passing matches. -/
theorem Select.task_phase_spec (self : Select) (ctx : StepContext) (vv : Option Key)
    (l : List Node) (deps0 : List Node) (ms0 : List Key)
    (h : ∀ d ∈ l, (∀ m, ctx.get d ≠ some (Complete.Throw m)) ∧
      (∀ v, ctx.get d = some (Complete.Return v) →
        ∃ o, self.select_literal ctx v vv = Except.ok o)) :
    self.task_phase ctx vv l deps0 ms0 =
      Select.task_decision (deps0 ++ missingOf ctx l) (ms0 ++ self.matchesOf ctx vv l) := by
  induction l generalizing deps0 ms0 with
  | nil => simp [Select.task_phase_nil, missingOf, Select.matchesOf]
  | cons d rest ih =>
    have hd := h d (List.mem_cons_self d rest)
    have hrest := fun x (hx : x ∈ rest) => h x (List.mem_cons_of_mem d hx)
    cases hget : ctx.get d with
    | none =>
      rw [Select.task_phase_cons]
      simp only [hget]
      rw [ih (deps0 ++ [d]) ms0 hrest]
      simp [missingOf, Select.matchesOf, List.filter_cons, List.filterMap_cons, hget,
        List.append_assoc]
    | some c =>
      cases c with
      | Return v =>
        obtain ⟨o, ho⟩ := hd.2 v hget
        cases o with
        | some m =>
          rw [Select.task_phase_cons]
          simp only [hget, ho]
          rw [ih deps0 (ms0 ++ [m]) hrest]
          simp [missingOf, Select.matchesOf, List.filter_cons, List.filterMap_cons, hget, ho,
            Except.toOption, Option.join, List.append_assoc]
        | none =>
          rw [Select.task_phase_cons]
          simp only [hget, ho]
          rw [ih deps0 ms0 hrest]
          simp [missingOf, Select.matchesOf, List.filter_cons, List.filterMap_cons, hget, ho,
            Except.toOption, Option.join]
      | Noop r c =>
        rw [Select.task_phase_cons]
        simp only [hget]
        rw [ih deps0 ms0 hrest]
        simp [missingOf, Select.matchesOf, List.filter_cons, List.filterMap_cons, hget]
      | Throw m => exact absurd hget (hd.1 m)

/-- The task-match loop propagates a Throw verbatim when every gathered
completion is missing, a Noop or that same Throw, and at least one is
the Throw. -/
theorem Select.task_phase_throw (self : Select) (ctx : StepContext) (vv : Option Key)
    (m : String) (l : List Node) (deps0 : List Node) (ms0 : List Key)
    (hall : ∀ d ∈ l, ctx.get d = none ∨ (∃ r c, ctx.get d = some (Complete.Noop r c)) ∨
      ctx.get d = some (Complete.Throw m))
    (hex : ∃ d ∈ l, ctx.get d = some (Complete.Throw m)) :
    self.task_phase ctx vv l deps0 ms0 = Except.ok (State.Complete (Complete.Throw m)) := by
  induction l generalizing deps0 ms0 with
  | nil =>
    rcases hex with ⟨d, hd, _⟩
    cases hd
  | cons d rest ih =>
    have hrest := fun x (hx : x ∈ rest) => hall x (List.mem_cons_of_mem d hx)
    have hexrest : (ctx.get d = some (Complete.Throw m) ∨ ∃ d0 ∈ rest,
        ctx.get d0 = some (Complete.Throw m)) := by
      rcases hex with ⟨d0, hd0, hth⟩
      rcases List.mem_cons.mp hd0 with rfl | hd0r
      · exact Or.inl hth
      · exact Or.inr ⟨d0, hd0r, hth⟩
    rcases hall d (List.mem_cons_self d rest) with hnone | ⟨r, c, hnoop⟩ | hthrow
    · rw [Select.task_phase_cons]
      simp only [hnone]
      refine ih _ _ hrest ?_
      rcases hexrest with hth | hr
      · rw [hnone] at hth
        cases hth
      · exact hr
    · rw [Select.task_phase_cons]
      simp only [hnoop]
      refine ih _ _ hrest ?_
      rcases hexrest with hth | hr
      · rw [hnoop] at hth
        simp at hth
      · exact hr
    · rw [Select.task_phase_cons]
      simp only [hthrow]

/-- When the variant phase is benign and the gate resolves to a required
variant value, Select::step is the literal-then-task phase at that
value. -/
theorem Select.step_of_gate (self : Select) (ctx : StepContext) (vv : Option Key)
    (hben : self.variants_phase_benign ctx) (hgate : self.gate_resolves vv) :
    self.step ctx = self.step_with_variant_value ctx vv := by
  rw [self.step_eq_of_benign ctx hben]
  rcases hgate with ⟨hk, rfl⟩ | ⟨k, kv, v, hk, hfind, rfl⟩
  · exact self.step_with_variants_none ctx self.variants hk
  · exact self.step_with_variants_present ctx self.variants k kv v hk hfind

/-- Unfolding of the SelectDependencies loop at a cons. -/
theorem SelectDependencies.deps_loop_cons (self : SelectDependencies) (ctx : StepContext)
    (d : Node) (rest deps0 : List Node) (acc : List Key) :
    self.deps_loop ctx (d :: rest) deps0 acc =
      (match ctx.get d with
      | some (Complete.Return value) => self.deps_loop ctx rest deps0 (acc ++ [value])
      | some (Complete.Noop _ _) =>
        Except.ok (State.Complete
          (Complete.Throw ("No source of explicit dep " ++ d.format ctx.to_str)))
      | some (Complete.Throw msg) => Except.ok (State.Complete (Complete.Throw msg))
      | none => self.deps_loop ctx rest (deps0 ++ [d]) acc) := rfl

/-- The SelectDependencies loop, when every gathered completion is
missing or a Return, accumulates exactly the missing dependencies and
the returned values, then waits or stores the list. -/
theorem SelectDependencies.deps_loop_spec (self : SelectDependencies) (ctx : StepContext)
    (l : List Node) (deps0 : List Node) (acc : List Key)
    (h : ∀ d ∈ l, ctx.get d = none ∨ ∃ v, ctx.get d = some (Complete.Return v)) :
    self.deps_loop ctx l deps0 acc =
      (if (deps0 ++ missingOf ctx l).length > 0 then
        Except.ok (State.Waiting (deps0 ++ missingOf ctx l))
      else
        Except.ok (State.Complete
          (Complete.Return (ctx.store_list (acc ++ returnsOf ctx l))))) := by
  induction l generalizing deps0 acc with
  | nil => simp [SelectDependencies.deps_loop, missingOf, returnsOf]
  | cons d rest ih =>
    have hrest := fun x (hx : x ∈ rest) => h x (List.mem_cons_of_mem d hx)
    rcases h d (List.mem_cons_self d rest) with hnone | ⟨v, hv⟩
    · rw [SelectDependencies.deps_loop_cons]
      simp only [hnone]
      rw [ih (deps0 ++ [d]) acc hrest]
      simp [missingOf, returnsOf, List.filter_cons, List.filterMap_cons, hnone,
        List.append_assoc]
    · rw [SelectDependencies.deps_loop_cons]
      simp only [hv]
      rw [ih deps0 (acc ++ [v]) hrest]
      simp [missingOf, returnsOf, List.filter_cons, List.filterMap_cons, hv, List.append_assoc]

/-- The SelectDependencies loop propagates a Throw verbatim when every
gathered completion is missing, a Return or that same Throw, and at
least one is the Throw. -/
theorem SelectDependencies.deps_loop_throw (self : SelectDependencies) (ctx : StepContext)
    (m : String) (l : List Node) (deps0 : List Node) (acc : List Key)
    (hall : ∀ d ∈ l, ctx.get d = none ∨ (∃ v, ctx.get d = some (Complete.Return v)) ∨
      ctx.get d = some (Complete.Throw m))
    (hex : ∃ d ∈ l, ctx.get d = some (Complete.Throw m)) :
    self.deps_loop ctx l deps0 acc = Except.ok (State.Complete (Complete.Throw m)) := by
  induction l generalizing deps0 acc with
  | nil =>
    rcases hex with ⟨d, hd, _⟩
    cases hd
  | cons d rest ih =>
    have hrest := fun x (hx : x ∈ rest) => hall x (List.mem_cons_of_mem d hx)
    have hexrest : (ctx.get d = some (Complete.Throw m) ∨ ∃ d0 ∈ rest,
        ctx.get d0 = some (Complete.Throw m)) := by
      rcases hex with ⟨d0, hd0, hth⟩
      rcases List.mem_cons.mp hd0 with rfl | hd0r
      · exact Or.inl hth
      · exact Or.inr ⟨d0, hd0r, hth⟩
    rcases hall d (List.mem_cons_self d rest) with hnone | ⟨v, hv⟩ | hthrow
    · rw [SelectDependencies.deps_loop_cons]
      simp only [hnone]
      refine ih _ _ hrest ?_
      rcases hexrest with hth | hr
      · rw [hnone] at hth
        cases hth
      · exact hr
    · rw [SelectDependencies.deps_loop_cons]
      simp only [hv]
      refine ih _ _ hrest ?_
      rcases hexrest with hth | hr
      · rw [hv] at hth
        simp at hth
      · exact hr
    · rw [SelectDependencies.deps_loop_cons]
      simp only [hthrow]

/-- The SelectDependencies loop upgrades the first Noop dependency to a
Throw naming that dependency, when every earlier completion is missing
or a Return (no Throw anywhere in the list). -/
theorem SelectDependencies.deps_loop_noop (self : SelectDependencies) (ctx : StepContext)
    (l : List Node) (deps0 : List Node) (acc : List Key)
    (hall : ∀ d ∈ l, ctx.get d = none ∨ (∃ v, ctx.get d = some (Complete.Return v)) ∨
      ∃ r c, ctx.get d = some (Complete.Noop r c))
    (hex : ∃ d ∈ l, ∃ r c, ctx.get d = some (Complete.Noop r c)) :
    ∃ d ∈ l, (∃ r c, ctx.get d = some (Complete.Noop r c)) ∧
      self.deps_loop ctx l deps0 acc =
        Except.ok (State.Complete
          (Complete.Throw ("No source of explicit dep " ++ d.format ctx.to_str))) := by
  induction l generalizing deps0 acc with
  | nil =>
    rcases hex with ⟨d, hd, _⟩
    cases hd
  | cons d rest ih =>
    have hrest := fun x (hx : x ∈ rest) => hall x (List.mem_cons_of_mem d hx)
    rcases hall d (List.mem_cons_self d rest) with hnone | ⟨v, hv⟩ | ⟨r, c, hnoop⟩
    · have hexrest : ∃ d0 ∈ rest, ∃ r c, ctx.get d0 = some (Complete.Noop r c) := by
        rcases hex with ⟨d0, hd0, hn⟩
        rcases List.mem_cons.mp hd0 with rfl | hd0r
        · rcases hn with ⟨r, c, hn⟩
          rw [hnone] at hn
          cases hn
        · exact ⟨d0, hd0r, hn⟩
      obtain ⟨d0, hd0, hn0, heq⟩ := ih (deps0 ++ [d]) acc hrest hexrest
      refine ⟨d0, List.mem_cons_of_mem d hd0, hn0, ?_⟩
      rw [SelectDependencies.deps_loop_cons]
      simp only [hnone]
      exact heq
    · have hexrest : ∃ d0 ∈ rest, ∃ r c, ctx.get d0 = some (Complete.Noop r c) := by
        rcases hex with ⟨d0, hd0, hn⟩
        rcases List.mem_cons.mp hd0 with rfl | hd0r
        · rcases hn with ⟨r, c, hn⟩
          rw [hv] at hn
          simp at hn
        · exact ⟨d0, hd0r, hn⟩
      obtain ⟨d0, hd0, hn0, heq⟩ := ih deps0 (acc ++ [v]) hrest hexrest
      refine ⟨d0, List.mem_cons_of_mem d hd0, hn0, ?_⟩
      rw [SelectDependencies.deps_loop_cons]
      simp only [hv]
      exact heq
    · refine ⟨d, List.mem_cons_self d rest, ⟨r, c, hnoop⟩, ?_⟩
      rw [SelectDependencies.deps_loop_cons]
      simp only [hnoop]

/-- Unfolding of the Task clause loop at a cons. -/
theorem Task.clause_loop_cons (self : Task) (ctx : StepContext) (s : Selector)
    (rest : List Selector) (deps0 : List Node) (acc : List Key) :
    self.clause_loop ctx (s :: rest) deps0 acc =
      (match ctx.get (self.clause_node s) with
      | some (Complete.Return value) => self.clause_loop ctx rest deps0 (acc ++ [value])
      | some (Complete.Noop _ _) =>
        Except.ok (State.Complete
          (Complete.Noop "Was missing (at least) input \x7b\x7d." (some (self.clause_node s))))
      | some (Complete.Throw msg) => Except.ok (State.Complete (Complete.Throw msg))
      | none => self.clause_loop ctx rest (deps0 ++ [self.clause_node s]) acc) := rfl

/-- The Task clause loop, when every clause completion is missing or a
Return, accumulates exactly the missing clause nodes and the returned
values, then waits or becomes Runnable with the values as literal Args
in clause order. -/
theorem Task.clause_loop_spec (self : Task) (ctx : StepContext)
    (l : List Selector) (deps0 : List Node) (acc : List Key)
    (h : ∀ s ∈ l, ctx.get (self.clause_node s) = none ∨
      ∃ v, ctx.get (self.clause_node s) = some (Complete.Return v)) :
    self.clause_loop ctx l deps0 acc =
      (if (deps0 ++ missingOf ctx (l.map self.clause_node)).isEmpty then
        Except.ok (State.Runnable
          ⟨self.selector.func, (acc ++ returnsOf ctx (l.map self.clause_node)).map Arg.Value,
            self.selector.cacheable⟩)
      else
        Except.ok (State.Waiting (deps0 ++ missingOf ctx (l.map self.clause_node)))) := by
  induction l generalizing deps0 acc with
  | nil =>
    cases hdep : deps0.isEmpty with
    | true => simp [Task.clause_loop, missingOf, returnsOf, hdep]
    | false => simp [Task.clause_loop, missingOf, returnsOf, hdep]
  | cons s rest ih =>
    have hrest := fun x (hx : x ∈ rest) => h x (List.mem_cons_of_mem s hx)
    rcases h s (List.mem_cons_self s rest) with hnone | ⟨v, hv⟩
    · rw [Task.clause_loop_cons]
      simp only [hnone]
      rw [ih (deps0 ++ [self.clause_node s]) acc hrest, List.map_cons,
        missingOf_cons_none ctx _ _ hnone, returnsOf_cons_none ctx _ _ hnone]
      simp [List.append_assoc]
    · rw [Task.clause_loop_cons]
      simp only [hv]
      rw [ih deps0 (acc ++ [v]) hrest, List.map_cons,
        missingOf_cons_some ctx _ _ _ hv, returnsOf_cons_return ctx _ _ _ hv]
      simp [List.append_assoc]

/-- The Task clause loop propagates a Throw verbatim when every clause
completion is missing, a Return or that same Throw, and at least one is
the Throw. -/
theorem Task.clause_loop_throw (self : Task) (ctx : StepContext) (m : String)
    (l : List Selector) (deps0 : List Node) (acc : List Key)
    (hall : ∀ s ∈ l, ctx.get (self.clause_node s) = none ∨
      (∃ v, ctx.get (self.clause_node s) = some (Complete.Return v)) ∨
      ctx.get (self.clause_node s) = some (Complete.Throw m))
    (hex : ∃ s ∈ l, ctx.get (self.clause_node s) = some (Complete.Throw m)) :
    self.clause_loop ctx l deps0 acc = Except.ok (State.Complete (Complete.Throw m)) := by
  induction l generalizing deps0 acc with
  | nil =>
    rcases hex with ⟨s, hs, _⟩
    cases hs
  | cons s rest ih =>
    have hrest := fun x (hx : x ∈ rest) => hall x (List.mem_cons_of_mem s hx)
    have hexrest : (ctx.get (self.clause_node s) = some (Complete.Throw m) ∨ ∃ s0 ∈ rest,
        ctx.get (self.clause_node s0) = some (Complete.Throw m)) := by
      rcases hex with ⟨s0, hs0, hth⟩
      rcases List.mem_cons.mp hs0 with rfl | hs0r
      · exact Or.inl hth
      · exact Or.inr ⟨s0, hs0r, hth⟩
    rcases hall s (List.mem_cons_self s rest) with hnone | ⟨v, hv⟩ | hthrow
    · rw [Task.clause_loop_cons]
      simp only [hnone]
      refine ih _ _ hrest ?_
      rcases hexrest with hth | hr
      · rw [hnone] at hth
        cases hth
      · exact hr
    · rw [Task.clause_loop_cons]
      simp only [hv]
      refine ih _ _ hrest ?_
      rcases hexrest with hth | hr
      · rw [hv] at hth
        simp at hth
      · exact hr
    · rw [Task.clause_loop_cons]
      simp only [hthrow]

/-- The Task clause loop completes as the missing-input Noop blaming the
first Noop clause node, when no clause completion is a Throw. -/
theorem Task.clause_loop_noop (self : Task) (ctx : StepContext)
    (l : List Selector) (deps0 : List Node) (acc : List Key)
    (hall : ∀ s ∈ l, ctx.get (self.clause_node s) = none ∨
      (∃ v, ctx.get (self.clause_node s) = some (Complete.Return v)) ∨
      ∃ r c, ctx.get (self.clause_node s) = some (Complete.Noop r c))
    (hex : ∃ s ∈ l, ∃ r c, ctx.get (self.clause_node s) = some (Complete.Noop r c)) :
    ∃ s ∈ l, (∃ r c, ctx.get (self.clause_node s) = some (Complete.Noop r c)) ∧
      self.clause_loop ctx l deps0 acc =
        Except.ok (State.Complete
          (Complete.Noop "Was missing (at least) input \x7b\x7d."
            (some (self.clause_node s)))) := by
  induction l generalizing deps0 acc with
  | nil =>
    rcases hex with ⟨s, hs, _⟩
    cases hs
  | cons s rest ih =>
    have hrest := fun x (hx : x ∈ rest) => hall x (List.mem_cons_of_mem s hx)
    rcases hall s (List.mem_cons_self s rest) with hnone | ⟨v, hv⟩ | ⟨r, c, hnoop⟩
    · have hexrest : ∃ s0 ∈ rest, ∃ r c,
          ctx.get (self.clause_node s0) = some (Complete.Noop r c) := by
        rcases hex with ⟨s0, hs0, hn⟩
        rcases List.mem_cons.mp hs0 with rfl | hs0r
        · rcases hn with ⟨r, c, hn⟩
          rw [hnone] at hn
          cases hn
        · exact ⟨s0, hs0r, hn⟩
      obtain ⟨s0, hs0, hn0, heq⟩ := ih (deps0 ++ [self.clause_node s]) acc hrest hexrest
      refine ⟨s0, List.mem_cons_of_mem s hs0, hn0, ?_⟩
      rw [Task.clause_loop_cons]
      simp only [hnone]
      exact heq
    · have hexrest : ∃ s0 ∈ rest, ∃ r c,
          ctx.get (self.clause_node s0) = some (Complete.Noop r c) := by
        rcases hex with ⟨s0, hs0, hn⟩
        rcases List.mem_cons.mp hs0 with rfl | hs0r
        · rcases hn with ⟨r, c, hn⟩
          rw [hv] at hn
          simp at hn
        · exact ⟨s0, hs0r, hn⟩
      obtain ⟨s0, hs0, hn0, heq⟩ := ih deps0 (acc ++ [v]) hrest hexrest
      refine ⟨s0, List.mem_cons_of_mem s hs0, hn0, ?_⟩
      rw [Task.clause_loop_cons]
      simp only [hv]
      exact heq
    · refine ⟨s, List.mem_cons_self s rest, ⟨r, c, hnoop⟩, ?_⟩
      rw [Task.clause_loop_cons]
      simp only [hnoop]

/-- A Forall₂ of Return completions means no dependency is missing and
the returned values are exactly the given list, in order. -/
theorem forall2_return_missing_returns (ctx : StepContext) (l : List Node) (vs : List Key)
    (h : List.Forall₂ (fun d v => ctx.get d = some (Complete.Return v)) l vs) :
    missingOf ctx l = [] ∧ returnsOf ctx l = vs := by
  induction h with
  | nil => exact ⟨rfl, rfl⟩
  | cons hd _ ih =>
    constructor
    · rw [missingOf_cons_some _ _ _ _ hd, ih.1]
    · rw [returnsOf_cons_return _ _ _ _ hd, ih.2]

/-- C8: for every registry state and (subject_type, product) pair, rule
lookup returns the intrinsics entry for the exact pair when one exists,
otherwise the tasks entry for the product when one exists, otherwise no
rules; the two maps are never combined in one result. -/
theorem c8_gen_rules (t : Tasks) (st : TypeId) (p : TypeConstraint) :
    (∀ e, alistGet t.intrinsics (st, p) = some e → t.gen_tasks st p = some e) ∧
    (alistGet t.intrinsics (st, p) = none → t.gen_tasks st p = alistGet t.tasks p) ∧
    (t.gen_tasks st p = alistGet t.intrinsics (st, p) ∨
      t.gen_tasks st p = alistGet t.tasks p) := by
  unfold Tasks.gen_tasks
  cases h : alistGet t.intrinsics (st, p) with
  | none => exact ⟨fun e he => by simp at he ⊢, fun _ => rfl, Or.inr rfl⟩
  | some ts =>
    refine ⟨fun e he => ?_, fun hn => by simp at hn, Or.inl rfl⟩
    cases he
    rfl

/-- C8 witness: a registry with both an intrinsic and a task entry for
(dT, dP) answers the intrinsic entry; without the intrinsic it answers
the task entry; with neither it answers none. -/
theorem c8_witness :
    (mkTasks [((dT, dP), [taskQ])] [(dP, [taskR])] (fun _ _ => false)
      (fun _ _ => [])).gen_tasks dT dP = some [taskQ] ∧
    (mkTasks [] [(dP, [taskR])] (fun _ _ => false)
      (fun _ _ => [])).gen_tasks dT dP = some [taskR] ∧
    (mkTasks [] [] (fun _ _ => false) (fun _ _ => [])).gen_tasks dT dP = none := by
  refine ⟨?_, ?_, ?_⟩
  · exact (c8_gen_rules (mkTasks [((dT, dP), [taskQ])] [(dP, [taskR])] (fun _ _ => false)
      (fun _ _ => [])) dT dP).1 [taskQ] rfl
  · exact ((c8_gen_rules (mkTasks [] [(dP, [taskR])] (fun _ _ => false)
      (fun _ _ => [])) dT dP).2.1 rfl).trans rfl
  · exact ((c8_gen_rules (mkTasks [] [] (fun _ _ => false)
      (fun _ _ => [])) dT dP).2.1 rfl).trans rfl

/-- C9: when the variant-propagation phase resolves benignly and the
selector has a variant key, an unbound key completes the Select as
Noop("A matching variant key was not configured in variants."); a bound
key makes the first binding of that key (linear search, first wins on
duplicate keys) the required variant value for the subsequent literal
matching. -/
theorem c9_variant_gate :
    (∀ (self : Select) (ctx : StepContext) (k : Field),
      self.variants_phase_benign ctx →
      self.selector.variant_key = some k →
      self.variants.find? (fun p => p.1 == k) = none →
      self.step ctx =
        Except.ok (State.Complete
          (Complete.Noop "A matching variant key was not configured in variants." none))) ∧
    (∀ (self : Select) (ctx : StepContext) (k kv v : Field),
      self.variants_phase_benign ctx →
      self.selector.variant_key = some k →
      self.variants.find? (fun p => p.1 == k) = some (kv, v) →
      self.step ctx = self.step_with_variant_value ctx (some v)) ∧
    (∀ (self : Select) (ctx : StepContext) (k v1 v2 : Field) (rest : Variants),
      self.variants_phase_benign ctx →
      self.selector.variant_key = some k →
      self.variants = (k, v1) :: (k, v2) :: rest →
      self.step ctx = self.step_with_variant_value ctx (some v1)) := by
  refine ⟨fun self ctx k hb hk hfind => ?_, fun self ctx k kv v hb hk hfind => ?_,
    fun self ctx k v1 v2 rest hb hk hvars => ?_⟩
  · rw [self.step_eq_of_benign ctx hb]
    exact self.step_with_variants_absent ctx self.variants k hk hfind
  · rw [self.step_eq_of_benign ctx hb]
    exact self.step_with_variants_present ctx self.variants k kv v hk hfind
  · rw [self.step_eq_of_benign ctx hb]
    refine self.step_with_variants_present ctx self.variants k k v1 hk ?_
    rw [hvars]
    exact List.find?_cons_of_pos _ (by simp)

/-- C9 witness: a Select with variant key bound twice resolves to the
first binding, and one with an unbound key completes as the Noop. -/
theorem c9_witness :
    (Select.mk kSub [(⟨⟨20⟩, ⟨5⟩⟩, ⟨⟨21⟩, ⟨5⟩⟩), (⟨⟨20⟩, ⟨5⟩⟩, ⟨⟨22⟩, ⟨5⟩⟩)]
        ⟨dP, some ⟨⟨20⟩, ⟨5⟩⟩⟩).step
      (mkCtx (fun _ => none) (mkTasks [] [] (fun _ _ => false) (fun _ _ => []))) =
      (Select.mk kSub [(⟨⟨20⟩, ⟨5⟩⟩, ⟨⟨21⟩, ⟨5⟩⟩), (⟨⟨20⟩, ⟨5⟩⟩, ⟨⟨22⟩, ⟨5⟩⟩)]
        ⟨dP, some ⟨⟨20⟩, ⟨5⟩⟩⟩).step_with_variant_value
        (mkCtx (fun _ => none) (mkTasks [] [] (fun _ _ => false) (fun _ _ => [])))
        (some ⟨⟨21⟩, ⟨5⟩⟩) ∧
    (Select.mk kSub [] ⟨dP, some ⟨⟨20⟩, ⟨5⟩⟩⟩).step
      (mkCtx (fun _ => none) (mkTasks [] [] (fun _ _ => false) (fun _ _ => []))) =
      Except.ok (State.Complete
        (Complete.Noop "A matching variant key was not configured in variants." none)) := by
  constructor
  · exact c9_variant_gate.2.2 _ _ ⟨⟨20⟩, ⟨5⟩⟩ ⟨⟨21⟩, ⟨5⟩⟩ ⟨⟨22⟩, ⟨5⟩⟩ []
      (Or.inl (by decide)) rfl rfl
  · exact c9_variant_gate.1 _ _ ⟨⟨20⟩, ⟨5⟩⟩ (Or.inl (by decide)) rfl rfl

/-- C10: StepContext::isinstance answers true without consulting the
host bridge whenever the Key type equals the constraint (the statement
quantifies over every context, hence every issubclass answer); and a
Select with no variant key whose product equals the subject type, with a
benign variant-propagation phase, returns the subject itself. -/
theorem c10_isinstance_reflexive :
    (∀ (ctx : StepContext) (item : Key) (sc : TypeId), item.type_id = sc →
      ctx.isinstance item sc = true) ∧
    (∀ (self : Select) (ctx : StepContext),
      self.selector.variant_key = none →
      self.selector.product = self.subject.type_id →
      self.variants_phase_benign ctx →
      self.step ctx = Except.ok (State.Complete (Complete.Return self.subject))) := by
  constructor
  · intro ctx item sc h
    unfold StepContext.isinstance
    simp [h]
  · intro self ctx hkey hprod hben
    rw [self.step_eq_of_benign ctx hben, self.step_with_variants_none ctx _ hkey]
    unfold Select.step_with_variant_value
    have hsingle : self.select_literal_single ctx self.subject none =
        Except.ok (some self.subject) := by
      unfold Select.select_literal_single
      have hi : ctx.isinstance self.subject self.selector.product = true := by
        unfold StepContext.isinstance
        simp [hprod]
      rw [hi]
      rfl
    have hlit : self.select_literal ctx self.subject none =
        Except.ok (some self.subject) := by
      unfold Select.select_literal
      rw [hsingle]
    rw [hlit]

/-- The task decision waits when some dependency is missing. -/
theorem Select.task_decision_waiting (deps : List Node) (ms : List Key) (h : deps ≠ []) :
    Select.task_decision deps ms = Except.ok (State.Waiting deps) := by
  unfold Select.task_decision
  cases deps with
  | nil => exact absurd rfl h
  | cons a l => rfl

/-- The task decision throws on more than one match. -/
theorem Select.task_decision_conflict (ms : List Key) (h : ms.length > 1) :
    Select.task_decision [] ms =
      Except.ok (State.Complete
        (Complete.Throw "Conflicting values produced for subject and type.")) := by
  unfold Select.task_decision
  simp [h]

/-- Every left element of a Forall₂ is related to some right element. -/
theorem forall2_left_mem {α β : Type} {R : α → β → Prop} (l : List α) (vs : List β)
    (h : List.Forall₂ R l vs) : ∀ d ∈ l, ∃ v, R d v := by
  induction h with
  | nil => intro d hd; cases hd
  | cons hd _ ih =>
    intro x hx
    rcases List.mem_cons.mp hx with rfl | hxr
    · exact ⟨_, hd⟩
    · exact ih x hxr

/-- C4 counterexample to the claim as stated: a Select in the task-match
phase with no missing candidate, whose single gathered value must pass a
literal-variant test with a required variant value. The source then
projects the name field, which is an unimplemented panic, so the step
aborts instead of returning any of the four claimed outcomes
(Waiting, Throw-conflict, Return or Noop). -/
theorem c4_counterexample :
    (Select.mk kSub [(⟨⟨20⟩, ⟨5⟩⟩, ⟨⟨21⟩, ⟨5⟩⟩)] ⟨dP, some ⟨⟨20⟩, ⟨5⟩⟩⟩).step ctxC4 =
      Except.error "TODO: Not implemented" := rfl

/-- C4 (amended): in the task-match phase of Select — the variant phase
benign, the gate resolved, the own literal test of the subject negative, no
candidate completion a Throw, and the literal-variant test of every gathered value
evaluating without hitting the unimplemented projections — the step
returns Waiting on all missing candidates if any; else Throw on more
than one passing match; else Return of the single match; else the
no-task Noop. -/
theorem c4_task_match_amended (self : Select) (ctx : StepContext) (vv : Option Key)
    (gens missing : List Node) (ms : List Key)
    (hben : self.variants_phase_benign ctx)
    (hgate : self.gate_resolves vv)
    (hlit : self.select_literal ctx self.subject vv = Except.ok none)
    (hgens : gens = ctx.gen_nodes self.subject self.selector.product self.variants)
    (hok : ∀ d ∈ gens, (∀ m, ctx.get d ≠ some (Complete.Throw m)) ∧
      (∀ v, ctx.get d = some (Complete.Return v) →
        ∃ o, self.select_literal ctx v vv = Except.ok o))
    (hmiss : missing = missingOf ctx gens)
    (hms : ms = self.matchesOf ctx vv gens) :
    (missing ≠ [] → self.step ctx = Except.ok (State.Waiting missing)) ∧
    (missing = [] → ms.length > 1 →
      self.step ctx = Except.ok (State.Complete
        (Complete.Throw "Conflicting values produced for subject and type."))) ∧
    (∀ v, missing = [] → ms = [v] →
      self.step ctx = Except.ok (State.Complete (Complete.Return v))) ∧
    (missing = [] → ms = [] →
      self.step ctx = Except.ok (State.Complete
        (Complete.Noop "No task was available to compute the value." none))) := by
  have hstep : self.step ctx = Select.task_decision missing ms := by
    rw [Select.step_of_gate self ctx vv hben hgate]
    unfold Select.step_with_variant_value
    simp only [hlit]
    rw [← hgens, Select.task_phase_spec self ctx vv gens [] [] hok]
    simp only [List.nil_append]
    rw [← hmiss, ← hms]
  refine ⟨fun h1 => ?_, fun h1 h2 => ?_, fun v h1 h2 => ?_, fun h1 h2 => ?_⟩
  · rw [hstep]
    exact Select.task_decision_waiting missing ms h1
  · rw [hstep, h1]
    exact Select.task_decision_conflict ms h2
  · rw [hstep, h1, h2]
    rfl
  · rw [hstep, h1, h2]
    rfl

/-- C4 witness: with no registered rule for the product and a literal
test that fails, the amended theorem yields the no-task Noop at a
concrete Select. -/
theorem c4_witness :
    (Select.mk kSub [] ⟨dP, none⟩).step
      (mkCtx (fun _ => none) (mkTasks [] [] (fun _ _ => false) (fun _ _ => []))) =
      Except.ok (State.Complete
        (Complete.Noop "No task was available to compute the value." none)) :=
  (c4_task_match_amended (Select.mk kSub [] ⟨dP, none⟩)
    (mkCtx (fun _ => none) (mkTasks [] [] (fun _ _ => false) (fun _ _ => []))) none
    [] [] [] (Or.inl (by decide)) (Or.inl ⟨rfl, rfl⟩) rfl rfl
    (fun d hd => absurd hd (List.not_mem_nil d)) rfl rfl).2.2.2 rfl rfl

/-- C5: SelectDependencies preserves source order: with the dep product
returned, when the Select node of every projected dependency returned, the
step stores exactly those values in projection order; when some are
missing (and the rest returned), the step waits on all missing ones. -/
theorem c5_order_preservation (self : SelectDependencies) (ctx : StepContext) (dp : Key)
    (dnodes : List Node)
    (hdp : ctx.get self.dep_product_node = some (Complete.Return dp))
    (hdn : dnodes = (ctx.project_multi dp self.selector.field).map self.dep_node) :
    (∀ vs : List Key,
      List.Forall₂ (fun d v => ctx.get d = some (Complete.Return v)) dnodes vs →
      self.step ctx = Except.ok (State.Complete (Complete.Return (ctx.store_list vs)))) ∧
    ((∀ d ∈ dnodes, ctx.get d = none ∨ ∃ v, ctx.get d = some (Complete.Return v)) →
      (∃ d ∈ dnodes, ctx.get d = none) →
      self.step ctx = Except.ok (State.Waiting (missingOf ctx dnodes))) := by
  have hstep : self.step ctx = self.deps_loop ctx dnodes [] [] := by
    unfold SelectDependencies.step
    simp only [hdp]
    rw [← hdn]
  constructor
  · intro vs hf
    obtain ⟨hm, hr⟩ := forall2_return_missing_returns ctx dnodes vs hf
    have hall : ∀ d ∈ dnodes, ctx.get d = none ∨ ∃ v, ctx.get d = some (Complete.Return v) :=
      fun d hd => Or.inr ((forall2_left_mem dnodes vs hf) d hd)
    rw [hstep, SelectDependencies.deps_loop_spec self ctx dnodes [] [] hall, hm, hr]
    simp
  · intro hall hex
    rw [hstep, SelectDependencies.deps_loop_spec self ctx dnodes [] [] hall]
    rcases hex with ⟨d, hd, hnone⟩
    have hmem : d ∈ missingOf ctx dnodes :=
      List.mem_filter.mpr ⟨hd, by rw [hnone]; rfl⟩
    have hpos : (missingOf ctx dnodes).length > 0 :=
      List.length_pos.mpr (List.ne_nil_of_mem hmem)
    simp only [List.nil_append]
    simp [hpos]

/-- C5 witness: a concrete SelectDependencies whose project_multi yields
[kC1, kC2] stores [vC1, vC2] in that order when both returned, and waits
on exactly the kC2 node when it is missing. -/
theorem c5_witness :
    selDepC5.step ctxC5 = Except.ok (State.Complete (Complete.Return kList)) ∧
    selDepC5.step ctxC5w =
      Except.ok (State.Waiting [Node.Select ⟨kC2, [], ⟨dP, none⟩⟩]) := by
  constructor
  · exact (c5_order_preservation selDepC5 ctxC5 kDep
      ((ctxC5.project_multi kDep selDepC5.selector.field).map selDepC5.dep_node) rfl rfl).1
      [vC1, vC2] (List.Forall₂.cons rfl (List.Forall₂.cons rfl List.Forall₂.nil))
  · refine (c5_order_preservation selDepC5 ctxC5w kDep
      ((ctxC5w.project_multi kDep selDepC5.selector.field).map selDepC5.dep_node) rfl rfl).2
      ?_ ?_
    · intro d hd
      have hd2 : d = Node.Select ⟨kC1, [], ⟨dP, none⟩⟩ ∨
          d = Node.Select ⟨kC2, [], ⟨dP, none⟩⟩ := by
        rcases List.mem_cons.mp hd with h | hd1
        · exact Or.inl h
        · rcases List.mem_cons.mp hd1 with h | hd0
          · exact Or.inr h
          · cases hd0
      rcases hd2 with rfl | rfl
      · exact Or.inr ⟨vC1, rfl⟩
      · exact Or.inl rfl
    · exact ⟨Node.Select ⟨kC2, [], ⟨dP, none⟩⟩,
        List.mem_cons_of_mem _ (List.mem_cons_self _ _), rfl⟩

/-- C1 counterexample to the claim as stated: a Select whose subject
literally is-a its product completes with Return(subject) even though
its direct dependency (the generated candidate Task node) is mapped to
Throw("boom") — the literal match short-circuits before dependencies
are consulted, so the Throw does not propagate. -/
theorem c1_counterexample :
    genCE1 ∈ (Node.Select selCE1).direct_deps ctxCE1 ∧
    ctxCE1.get genCE1 = some (Complete.Throw "boom") ∧
    (Node.Select selCE1).step ctxCE1 =
      Except.ok (State.Complete (Complete.Return kSubP)) := by
  refine ⟨?_, rfl, rfl⟩
  show genCE1 ∈ [genCE1]
  exact List.mem_cons_self _ _

/-- C1 (amended): a dependency Throw(m) propagates verbatim from every
node kind provided the step actually consults that dependency before an
earlier terminating branch: the Select variants node Throw propagates
unconditionally; the Select task phase propagates when it is reached (no
literal match) and no candidate holds a different outcome than missing /
Noop / Throw(m); the SelectDependencies dep-product Throw propagates
unconditionally and its projected deps propagate when none is a Noop or
a different Throw; ProjectField and SelectProjection propagate their
staged dependency Throws; a Task clause Throw propagates when no clause
dependency is a Noop or a different Throw. -/
theorem c1_throw_propagation_amended :
    (∀ (self : Select) (ctx : StepContext) (m : String),
      self.subject.type_id = ctx.type_address →
      self.selector.product ≠ ctx.type_has_variants →
      ctx.get (self.variants_node ctx) = some (Complete.Throw m) →
      self.step ctx = Except.ok (State.Complete (Complete.Throw m))) ∧
    (∀ (self : Select) (ctx : StepContext) (vv : Option Key) (m : String),
      self.variants_phase_benign ctx →
      self.gate_resolves vv →
      self.select_literal ctx self.subject vv = Except.ok none →
      (∀ d ∈ ctx.gen_nodes self.subject self.selector.product self.variants,
        ctx.get d = none ∨ (∃ r c, ctx.get d = some (Complete.Noop r c)) ∨
        ctx.get d = some (Complete.Throw m)) →
      (∃ d ∈ ctx.gen_nodes self.subject self.selector.product self.variants,
        ctx.get d = some (Complete.Throw m)) →
      self.step ctx = Except.ok (State.Complete (Complete.Throw m))) ∧
    (∀ (self : SelectDependencies) (ctx : StepContext) (m : String),
      ctx.get self.dep_product_node = some (Complete.Throw m) →
      self.step ctx = Except.ok (State.Complete (Complete.Throw m))) ∧
    (∀ (self : SelectDependencies) (ctx : StepContext) (dp : Key) (m : String),
      ctx.get self.dep_product_node = some (Complete.Return dp) →
      (∀ d ∈ (ctx.project_multi dp self.selector.field).map self.dep_node,
        ctx.get d = none ∨ (∃ v, ctx.get d = some (Complete.Return v)) ∨
        ctx.get d = some (Complete.Throw m)) →
      (∃ d ∈ (ctx.project_multi dp self.selector.field).map self.dep_node,
        ctx.get d = some (Complete.Throw m)) →
      self.step ctx = Except.ok (State.Complete (Complete.Throw m))) ∧
    (∀ (self : ProjectField) (ctx : StepContext) (m : String),
      ctx.get self.input_node = some (Complete.Throw m) →
      self.step ctx = Except.ok (State.Complete (Complete.Throw m))) ∧
    (∀ (self : SelectProjection) (ctx : StepContext) (m : String),
      ctx.get self.input_node = some (Complete.Throw m) →
      self.step ctx = Except.ok (State.Complete (Complete.Throw m))) ∧
    (∀ (self : SelectProjection) (ctx : StepContext) (ps : Key) (m : String),
      ctx.get self.input_node = some (Complete.Return ps) →
      ctx.get (self.output_node ps) = some (Complete.Throw m) →
      self.step ctx = Except.ok (State.Complete (Complete.Throw m))) ∧
    (∀ (self : Task) (ctx : StepContext) (m : String),
      (∀ s ∈ self.selector.clause, ctx.get (self.clause_node s) = none ∨
        (∃ v, ctx.get (self.clause_node s) = some (Complete.Return v)) ∨
        ctx.get (self.clause_node s) = some (Complete.Throw m)) →
      (∃ s ∈ self.selector.clause,
        ctx.get (self.clause_node s) = some (Complete.Throw m)) →
      self.step ctx = Except.ok (State.Complete (Complete.Throw m))) := by
  refine ⟨?_, ?_, ?_, ?_, ?_, ?_, ?_, ?_⟩
  · intro self ctx m h1 h2 h3
    unfold Select.step
    cases hb : (self.subject.type_id == ctx.type_address &&
        self.selector.product != ctx.type_has_variants) with
    | true =>
      simp only [hb, if_true]
      rw [h3]
    | false =>
      exfalso
      revert hb
      simp [h1, h2]
  · intro self ctx vv m hben hgate hlit hall hex
    rw [Select.step_of_gate self ctx vv hben hgate]
    unfold Select.step_with_variant_value
    simp only [hlit]
    exact Select.task_phase_throw self ctx vv m _ [] [] hall hex
  · intro self ctx m h
    unfold SelectDependencies.step
    rw [h]
  · intro self ctx dp m hdp hall hex
    unfold SelectDependencies.step
    simp only [hdp]
    exact SelectDependencies.deps_loop_throw self ctx m _ [] [] hall hex
  · intro self ctx m h
    unfold ProjectField.step
    rw [h]
  · intro self ctx m h
    unfold SelectProjection.step
    rw [h]
  · intro self ctx ps m h1 h2
    unfold SelectProjection.step
    simp only [h1, h2]
  · intro self ctx m hall hex
    unfold Task.step
    exact Task.clause_loop_throw self ctx m _ [] [] hall hex

/-- C1 witness: a thrown dep-product propagates from SelectDependencies
and a thrown input product propagates from ProjectField, verbatim. -/
theorem c1_witness :
    selDepC5.step ctxC1w = Except.ok (State.Complete (Complete.Throw "boom")) ∧
    (ProjectField.mk kSub [] ⟨dP, dT, fld, dQ⟩).step ctxC1w =
      Except.ok (State.Complete (Complete.Throw "boom")) :=
  ⟨c1_throw_propagation_amended.2.2.1 selDepC5 ctxC1w "boom" rfl,
   c1_throw_propagation_amended.2.2.2.2.1 (ProjectField.mk kSub [] ⟨dP, dT, fld, dQ⟩)
     ctxC1w "boom" rfl⟩

/-- C3 counterexample to the claim as stated: a Task whose first clause
dependency completed as Noop and whose second clause dependency is
missing does not return Waiting at all — the Noop preempts the gather
loop, so the missing dependency is not collected. -/
theorem c3_counterexample :
    ctxCE3.get (taskCE7.clause_node (Selector.select dQ)) = none ∧
    taskCE7.clause_node (Selector.select dQ) ∈ (Node.Task taskCE7).direct_deps ctxCE3 ∧
    taskCE7.step ctxCE3 =
      Except.ok (State.Complete (Complete.Noop "Was missing (at least) input \x7b\x7d."
        (some (taskCE7.clause_node (Selector.select dP))))) ∧
    (∀ l, taskCE7.step ctxCE3 ≠ Except.ok (State.Waiting l)) := by
  refine ⟨rfl, ?_, rfl, ?_⟩
  · show _ ∈ [taskCE7.clause_node (Selector.select dP),
      taskCE7.clause_node (Selector.select dQ)]
    exact List.mem_cons_of_mem _ (List.mem_cons_self _ _)
  · intro l h
    have heq : taskCE7.step ctxCE3 =
        Except.ok (State.Complete (Complete.Noop "Was missing (at least) input \x7b\x7d."
          (some (taskCE7.clause_node (Selector.select dP))))) := rfl
    rw [heq] at h
    exact State.noConfusion (Except.ok.inj h)

/-- C3 (amended): whenever at least one consulted dependency is missing
and no consulted dependency completed with a preempting outcome (any
Throw; a Noop in a Task clause or among SelectDependencies projected
deps — a Noop candidate is merely skipped by Select, and a Return
candidate is gathered provided its literal-variant test avoids the
unimplemented TODO projections, which otherwise abort the step), the
step returns Waiting of exactly all missing consulted dependencies, in
consultation order; and each staged first dependency — the Select
variants node, the SelectDependencies dep-product node, the
ProjectField input node, and both SelectProjection stage nodes — yields
a singleton Waiting when it is missing. -/
theorem c3_waiting_gathers_all_amended :
    (∀ (self : Task) (ctx : StepContext),
      (∀ s ∈ self.selector.clause, ctx.get (self.clause_node s) = none ∨
        ∃ v, ctx.get (self.clause_node s) = some (Complete.Return v)) →
      (∃ s ∈ self.selector.clause, ctx.get (self.clause_node s) = none) →
      self.step ctx = Except.ok (State.Waiting
        (missingOf ctx (self.selector.clause.map self.clause_node)))) ∧
    (∀ (self : SelectDependencies) (ctx : StepContext) (dp : Key),
      ctx.get self.dep_product_node = some (Complete.Return dp) →
      (∀ d ∈ (ctx.project_multi dp self.selector.field).map self.dep_node,
        ctx.get d = none ∨ ∃ v, ctx.get d = some (Complete.Return v)) →
      (∃ d ∈ (ctx.project_multi dp self.selector.field).map self.dep_node,
        ctx.get d = none) →
      self.step ctx = Except.ok (State.Waiting
        (missingOf ctx ((ctx.project_multi dp self.selector.field).map self.dep_node)))) ∧
    (∀ (self : Select) (ctx : StepContext) (vv : Option Key),
      self.variants_phase_benign ctx →
      self.gate_resolves vv →
      self.select_literal ctx self.subject vv = Except.ok none →
      (∀ d ∈ ctx.gen_nodes self.subject self.selector.product self.variants,
        ctx.get d = none ∨ (∃ r c, ctx.get d = some (Complete.Noop r c)) ∨
        (∃ v, ctx.get d = some (Complete.Return v) ∧
          ∃ o, self.select_literal ctx v vv = Except.ok o)) →
      (∃ d ∈ ctx.gen_nodes self.subject self.selector.product self.variants,
        ctx.get d = none) →
      self.step ctx = Except.ok (State.Waiting
        (missingOf ctx (ctx.gen_nodes self.subject self.selector.product self.variants)))) ∧
    (∀ (self : Select) (ctx : StepContext),
      self.subject.type_id = ctx.type_address →
      self.selector.product ≠ ctx.type_has_variants →
      ctx.get (self.variants_node ctx) = none →
      self.step ctx = Except.ok (State.Waiting [self.variants_node ctx])) ∧
    (∀ (self : SelectDependencies) (ctx : StepContext),
      ctx.get self.dep_product_node = none →
      self.step ctx = Except.ok (State.Waiting [self.dep_product_node])) ∧
    (∀ (self : ProjectField) (ctx : StepContext),
      ctx.get self.input_node = none →
      self.step ctx = Except.ok (State.Waiting [self.input_node])) ∧
    (∀ (self : SelectProjection) (ctx : StepContext),
      ctx.get self.input_node = none →
      self.step ctx = Except.ok (State.Waiting [self.input_node])) ∧
    (∀ (self : SelectProjection) (ctx : StepContext) (ps : Key),
      ctx.get self.input_node = some (Complete.Return ps) →
      ctx.get (self.output_node ps) = none →
      self.step ctx = Except.ok (State.Waiting [self.output_node ps])) := by
  refine ⟨?_, ?_, ?_, ?_, ?_, ?_, ?_, ?_⟩
  · intro self ctx hall hex
    unfold Task.step
    rw [Task.clause_loop_spec self ctx self.selector.clause [] [] hall]
    rcases hex with ⟨s, hs, hnone⟩
    have hne : missingOf ctx (self.selector.clause.map self.clause_node) ≠ [] :=
      List.ne_nil_of_mem (List.mem_filter.mpr
        ⟨List.mem_map_of_mem self.clause_node hs, by rw [hnone]; rfl⟩)
    simp only [List.nil_append]
    cases hie : (missingOf ctx (self.selector.clause.map self.clause_node)).isEmpty with
    | true => exact absurd (List.isEmpty_iff.mp hie) hne
    | false => simp [hie]
  · intro self ctx dp hdp hall hex
    unfold SelectDependencies.step
    simp only [hdp]
    rw [SelectDependencies.deps_loop_spec self ctx _ [] [] hall]
    rcases hex with ⟨d, hd, hnone⟩
    have hpos : (missingOf ctx
        ((ctx.project_multi dp self.selector.field).map self.dep_node)).length > 0 :=
      List.length_pos.mpr (List.ne_nil_of_mem
        (List.mem_filter.mpr ⟨hd, by rw [hnone]; rfl⟩))
    simp only [List.nil_append]
    simp [hpos]
  · intro self ctx vv hben hgate hlit hall hex
    have hok : ∀ d ∈ ctx.gen_nodes self.subject self.selector.product self.variants,
        (∀ m, ctx.get d ≠ some (Complete.Throw m)) ∧
        (∀ v, ctx.get d = some (Complete.Return v) →
          ∃ o, self.select_literal ctx v vv = Except.ok o) := by
      intro d hd
      rcases hall d hd with h | ⟨r, c, h⟩ | ⟨v, hv, o, ho⟩
      · refine ⟨fun m hm => ?_, fun w hw => ?_⟩
        · rw [h] at hm
          cases hm
        · rw [h] at hw
          cases hw
      · refine ⟨fun m hm => ?_, fun w hw => ?_⟩
        · rw [h] at hm
          simp at hm
        · rw [h] at hw
          simp at hw
      · refine ⟨fun m hm => ?_, fun w hw => ?_⟩
        · rw [hv] at hm
          simp at hm
        · rw [hv] at hw
          simp only [Option.some.injEq, Complete.Return.injEq] at hw
          subst hw
          exact ⟨o, ho⟩
    have hne : missingOf ctx
        (ctx.gen_nodes self.subject self.selector.product self.variants) ≠ [] := by
      rcases hex with ⟨d, hd, hnone⟩
      exact List.ne_nil_of_mem (List.mem_filter.mpr ⟨hd, by rw [hnone]; rfl⟩)
    rw [Select.step_of_gate self ctx vv hben hgate]
    unfold Select.step_with_variant_value
    simp only [hlit]
    rw [Select.task_phase_spec self ctx vv _ [] [] hok]
    simp only [List.nil_append]
    exact Select.task_decision_waiting _ _ hne
  · intro self ctx h1 h2 hnone
    unfold Select.step
    cases hb : (self.subject.type_id == ctx.type_address &&
        self.selector.product != ctx.type_has_variants) with
    | true =>
      simp only [hb, if_true]
      rw [hnone]
    | false =>
      exfalso
      revert hb
      simp [h1, h2]
  · intro self ctx hnone
    unfold SelectDependencies.step
    rw [hnone]
  · intro self ctx hnone
    unfold ProjectField.step
    rw [hnone]
  · intro self ctx hnone
    unfold SelectProjection.step
    rw [hnone]
  · intro self ctx ps h1 hnone
    unfold SelectProjection.step
    simp only [h1, hnone]

/-- C3 witness: a Task whose two clause dependencies are both missing
waits on both of them, in clause order, not just the first; a Select
with one Return candidate (its literal test panic-free) and one missing
candidate waits on the missing one; and a SelectDependencies whose
dep-product node is missing waits on exactly that node. -/
theorem c3_witness :
    taskCE7.step ctxW3 = Except.ok (State.Waiting
      [taskCE7.clause_node (Selector.select dP),
        taskCE7.clause_node (Selector.select dQ)]) ∧
    (Select.mk kSub [] ⟨dP, none⟩).step ctxW3s =
      Except.ok (State.Waiting [Node.Task ⟨kSub, dP, [], taskR⟩]) ∧
    selDepC5.step ctxW3 = Except.ok (State.Waiting [selDepC5.dep_product_node]) := by
  refine ⟨?_, ?_, ?_⟩
  · exact c3_waiting_gathers_all_amended.1 taskCE7 ctxW3
      (fun s _ => Or.inl rfl)
      ⟨Selector.select dP, List.mem_cons_self _ _, rfl⟩
  · refine c3_waiting_gathers_all_amended.2.2.1 (Select.mk kSub [] ⟨dP, none⟩) ctxW3s none
      (Or.inl (by decide)) (Or.inl ⟨rfl, rfl⟩) rfl ?_ ?_
    · intro d hd
      have hd2 : d = Node.Task ⟨kSub, dP, [], taskQ⟩ ∨
          d = Node.Task ⟨kSub, dP, [], taskR⟩ := by
        rcases List.mem_cons.mp hd with h | hd1
        · exact Or.inl h
        · rcases List.mem_cons.mp hd1 with h | hd0
          · exact Or.inr h
          · cases hd0
      rcases hd2 with rfl | rfl
      · exact Or.inr (Or.inr ⟨vC1, rfl, some vC1, rfl⟩)
      · exact Or.inl rfl
    · exact ⟨Node.Task ⟨kSub, dP, [], taskR⟩,
        List.mem_cons_of_mem _ (List.mem_cons_self _ _), rfl⟩
  · exact c3_waiting_gathers_all_amended.2.2.2.2.1 selDepC5 ctxW3 rfl

/-- C6 counterexample to the claim as stated: a SelectDependencies whose
first projected dependency threw and whose second completed as Noop
propagates the Throw("boom") instead of upgrading the Noop to the
"No source of explicit dep" Throw. -/
theorem c6_counterexample :
    ctxCE6.get (selDepC5.dep_node kC2) = some (Complete.Noop "nope" none) ∧
    selDepC5.step ctxCE6 = Except.ok (State.Complete (Complete.Throw "boom")) :=
  ⟨rfl, rfl⟩

/-- C6 (amended): Noop is upgraded to Throw at mandatory-dependency
positions provided no projected dependency completed as Throw (a Throw
anywhere in the projected list preempts the upgrade verbatim): a
SelectDependencies with its dep product returned and some projected dep
a Noop (the rest missing or returned) throws
"No source of explicit dep Select"; a SelectProjection whose inner
projection returned and whose outer Select completed as Noop throws
"No source of projected dependency Select". -/
theorem c6_noop_upgrade_amended :
    (∀ (self : SelectDependencies) (ctx : StepContext) (dp : Key),
      ctx.get self.dep_product_node = some (Complete.Return dp) →
      (∀ d ∈ (ctx.project_multi dp self.selector.field).map self.dep_node,
        ctx.get d = none ∨ (∃ v, ctx.get d = some (Complete.Return v)) ∨
        ∃ r c, ctx.get d = some (Complete.Noop r c)) →
      (∃ d ∈ (ctx.project_multi dp self.selector.field).map self.dep_node,
        ∃ r c, ctx.get d = some (Complete.Noop r c)) →
      self.step ctx = Except.ok (State.Complete
        (Complete.Throw "No source of explicit dep Select"))) ∧
    (∀ (self : SelectProjection) (ctx : StepContext) (ps : Key) (r : String)
      (c : Option Node),
      ctx.get self.input_node = some (Complete.Return ps) →
      ctx.get (self.output_node ps) = some (Complete.Noop r c) →
      self.step ctx = Except.ok (State.Complete
        (Complete.Throw "No source of projected dependency Select"))) := by
  constructor
  · intro self ctx dp hdp hall hex
    unfold SelectDependencies.step
    simp only [hdp]
    obtain ⟨d, hd, hn, heq⟩ :=
      SelectDependencies.deps_loop_noop self ctx _ [] [] hall hex
    rw [heq]
    obtain ⟨subj, _, rfl⟩ := List.mem_map.mp hd
    rfl
  · intro self ctx ps r c h1 h2
    unfold SelectProjection.step
    simp only [h1, h2]
    rfl

/-- C6 witness: a concrete SelectDependencies with a Noop projected dep
(the other returned) throws the explicit-dep message, and a concrete
SelectProjection with a Noop outer Select throws the projected-dep
message. -/
theorem c6_witness :
    selDepC5.step ctxW6 = Except.ok (State.Complete
      (Complete.Throw "No source of explicit dep Select")) ∧
    spW6.step ctxW6p = Except.ok (State.Complete
      (Complete.Throw "No source of projected dependency Select")) := by
  constructor
  · refine c6_noop_upgrade_amended.1 selDepC5 ctxW6 kDep rfl ?_ ?_
    · intro d hd
      have hd2 : d = Node.Select ⟨kC1, [], ⟨dP, none⟩⟩ ∨
          d = Node.Select ⟨kC2, [], ⟨dP, none⟩⟩ := by
        rcases List.mem_cons.mp hd with h | hd1
        · exact Or.inl h
        · rcases List.mem_cons.mp hd1 with h | hd0
          · exact Or.inr h
          · cases hd0
      rcases hd2 with rfl | rfl
      · exact Or.inr (Or.inr ⟨"nope", none, rfl⟩)
      · exact Or.inr (Or.inl ⟨vC2, rfl⟩)
    · exact ⟨Node.Select ⟨kC1, [], ⟨dP, none⟩⟩, List.mem_cons_self _ _,
        "nope", none, rfl⟩
  · exact c6_noop_upgrade_amended.2 spW6 ctxW6p kC1 "nope" none rfl rfl

/-- C7 counterexample to the claim as stated: a Task whose first clause
dependency threw and whose second completed as Noop propagates the
Throw("boom") instead of completing as the missing-input Noop. -/
theorem c7_counterexample :
    ctxCE7.get (taskCE7.clause_node (Selector.select dQ)) =
      some (Complete.Noop "nope" none) ∧
    taskCE7.step ctxCE7 = Except.ok (State.Complete (Complete.Throw "boom")) :=
  ⟨rfl, rfl⟩

/-- C7 (amended): this draft has no optional-selector notion and no
host None key: every clause selector is mandatory. When some clause
dependency completed as Noop and none threw, the Task completes as
Noop("Was missing (at least) input", blaming the first such node). When
every clause dependency returned, the step is
Runnable with func = rule.func, args = the returned values as literal
Args in clause order, and cacheable = rule.cacheable. -/
theorem c7_task_noop_runnable_amended :
    (∀ (self : Task) (ctx : StepContext),
      (∀ s ∈ self.selector.clause, ctx.get (self.clause_node s) = none ∨
        (∃ v, ctx.get (self.clause_node s) = some (Complete.Return v)) ∨
        ∃ r c, ctx.get (self.clause_node s) = some (Complete.Noop r c)) →
      (∃ s ∈ self.selector.clause,
        ∃ r c, ctx.get (self.clause_node s) = some (Complete.Noop r c)) →
      ∃ s ∈ self.selector.clause,
        (∃ r c, ctx.get (self.clause_node s) = some (Complete.Noop r c)) ∧
        self.step ctx = Except.ok (State.Complete
          (Complete.Noop "Was missing (at least) input \x7b\x7d."
            (some (self.clause_node s))))) ∧
    (∀ (self : Task) (ctx : StepContext) (vs : List Key),
      List.Forall₂ (fun s v => ctx.get (self.clause_node s) = some (Complete.Return v))
        self.selector.clause vs →
      self.step ctx = Except.ok (State.Runnable
        ⟨self.selector.func, vs.map Arg.Value, self.selector.cacheable⟩)) := by
  constructor
  · intro self ctx hall hex
    unfold Task.step
    exact Task.clause_loop_noop self ctx _ [] [] hall hex
  · intro self ctx vs hf
    have hf2 : List.Forall₂ (fun d v => ctx.get d = some (Complete.Return v))
        (self.selector.clause.map self.clause_node) vs :=
      List.forall₂_map_left_iff.mpr hf
    obtain ⟨hm, hr⟩ := forall2_return_missing_returns ctx _ vs hf2
    have hall : ∀ s ∈ self.selector.clause, ctx.get (self.clause_node s) = none ∨
        ∃ v, ctx.get (self.clause_node s) = some (Complete.Return v) :=
      fun s hs => Or.inr ((forall2_left_mem self.selector.clause vs hf) s hs)
    unfold Task.step
    rw [Task.clause_loop_spec self ctx self.selector.clause [] [] hall]
    simp only [List.nil_append, hm, hr]
    simp

/-- C7 witness: a two-selector Task whose clause dependencies both
returned becomes Runnable with the two values as literal Args in clause
order; with the first clause dependency a Noop (the other returned) it
completes as the missing-input Noop blaming that node. -/
theorem c7_witness :
    taskCE7.step ctxW7 = Except.ok (State.Runnable
      ⟨⟨52⟩, [Arg.Value vC1, Arg.Value vC2], true⟩) ∧
    (∃ s ∈ taskCE7.selector.clause,
      (∃ r c, ctxW6p.get (taskCE7.clause_node s) = some (Complete.Noop r c)) ∧
      taskCE7.step ctxW6p = Except.ok (State.Complete
        (Complete.Noop "Was missing (at least) input \x7b\x7d."
          (some (taskCE7.clause_node s))))) := by
  constructor
  · exact c7_task_noop_runnable_amended.2 taskCE7 ctxW7 [vC1, vC2]
      (List.Forall₂.cons rfl (List.Forall₂.cons rfl List.Forall₂.nil))
  · refine c7_task_noop_runnable_amended.1 taskCE7 ctxW6p ?_ ?_
    · intro s hs
      have hs2 : s = Selector.select dP ∨ s = Selector.select dQ := by
        rcases List.mem_cons.mp hs with h | hs1
        · exact Or.inl h
        · rcases List.mem_cons.mp hs1 with h | hs0
          · exact Or.inr h
          · cases hs0
      rcases hs2 with rfl | rfl
      · exact Or.inr (Or.inr ⟨"nope", none, rfl⟩)
      · exact Or.inr (Or.inr ⟨"nope", none, rfl⟩)
    · exact ⟨Selector.select dP, List.mem_cons_self _ _, "nope", none, rfl⟩

/-- select_literal_single either returns or aborts in the unimplemented
name projection. -/
theorem Select.select_literal_single_shape (self : Select) (ctx : StepContext)
    (candidate : Key) (vv : Option Key) :
    (∃ o, self.select_literal_single ctx candidate vv = Except.ok o) ∨
    self.select_literal_single ctx candidate vv = Except.error "TODO: Not implemented" := by
  unfold Select.select_literal_single
  cases hb : (!ctx.isinstance candidate self.selector.product) with
  | true => exact Or.inl ⟨none, by simp [hb]⟩
  | false =>
    cases vv with
    | none => exact Or.inl ⟨some candidate, by simp [hb]⟩
    | some v =>
      right
      simp [hb, StepContext.field_name]

/-- Unfolding of the has-a child loop at a cons. -/
theorem Select.select_first_child_cons (self : Select) (ctx : StepContext) (vv : Option Key)
    (child : Key) (rest : List Key) :
    self.select_first_child ctx vv (child :: rest) =
      (match self.select_literal_single ctx child vv with
      | Except.error msg => Except.error msg
      | Except.ok (some c) => Except.ok (some c)
      | Except.ok none => self.select_first_child ctx vv rest) := rfl

/-- The has-a child loop either returns or aborts in the unimplemented
name projection. -/
theorem Select.select_first_child_shape (self : Select) (ctx : StepContext) (vv : Option Key)
    (l : List Key) :
    (∃ o, self.select_first_child ctx vv l = Except.ok o) ∨
    self.select_first_child ctx vv l = Except.error "TODO: Not implemented" := by
  induction l with
  | nil => exact Or.inl ⟨none, rfl⟩
  | cons child rest ih =>
    rw [Select.select_first_child_cons]
    rcases self.select_literal_single_shape ctx child vv with ⟨o, ho⟩ | he
    · cases o with
      | some c =>
        simp only [ho]
        exact Or.inl ⟨some c, rfl⟩
      | none =>
        simp only [ho]
        exact ih
    · simp only [he]
      exact Or.inr trivial

/-- select_literal either returns or aborts in an unimplemented
projection (name or products). -/
theorem Select.select_literal_shape (self : Select) (ctx : StepContext)
    (candidate : Key) (vv : Option Key) :
    (∃ o, self.select_literal ctx candidate vv = Except.ok o) ∨
    self.select_literal ctx candidate vv = Except.error "TODO: Not implemented" := by
  unfold Select.select_literal
  rcases self.select_literal_single_shape ctx candidate vv with ⟨o, ho⟩ | he
  · cases o with
    | some c =>
      simp only [ho]
      exact Or.inl ⟨some c, rfl⟩
    | none =>
      simp only [ho]
      cases hp : ctx.has_products candidate with
      | false =>
        simp only [hp, Bool.false_eq_true, if_false]
        exact Or.inl ⟨none, rfl⟩
      | true =>
        simp only [hp, if_true]
        right
        simp [StepContext.field_products]
  · simp only [he]
    exact Or.inr trivial

/-- The task decision is always an ok State. -/
theorem Select.task_decision_ok (d : List Node) (ms : List Key) :
    ∃ s, Select.task_decision d ms = Except.ok s := by
  cases d with
  | cons a l => exact ⟨State.Waiting (a :: l), rfl⟩
  | nil =>
    cases ms with
    | nil => exact ⟨_, rfl⟩
    | cons v rest =>
      cases rest with
      | nil => exact ⟨_, rfl⟩
      | cons v2 rest2 =>
        refine ⟨State.Complete
          (Complete.Throw "Conflicting values produced for subject and type."), ?_⟩
        unfold Select.task_decision
        rw [if_neg (by simp), if_pos (by simp only [List.length_cons]; omega)]

/-- The task-match loop either returns or aborts in an unimplemented
projection. -/
theorem Select.task_phase_shape (self : Select) (ctx : StepContext) (vv : Option Key)
    (l deps0 : List Node) (ms0 : List Key) :
    (∃ s, self.task_phase ctx vv l deps0 ms0 = Except.ok s) ∨
    self.task_phase ctx vv l deps0 ms0 = Except.error "TODO: Not implemented" := by
  induction l generalizing deps0 ms0 with
  | nil => exact Or.inl (Select.task_decision_ok deps0 ms0)
  | cons d rest ih =>
    rw [Select.task_phase_cons]
    cases hget : ctx.get d with
    | none =>
      simp only [hget]
      exact ih (deps0 ++ [d]) ms0
    | some c =>
      cases c with
      | Return v =>
        rcases self.select_literal_shape ctx v vv with ⟨o, ho⟩ | he
        · cases o with
          | some w =>
            simp only [hget, ho]
            exact ih deps0 (ms0 ++ [w])
          | none =>
            simp only [hget, ho]
            exact ih deps0 ms0
        · simp only [hget, he]
          exact Or.inr trivial
      | Noop r c =>
        simp only [hget]
        exact ih deps0 ms0
      | Throw m =>
        simp only [hget]
        exact Or.inl ⟨_, rfl⟩

/-- The literal-then-task phase either returns or aborts in an
unimplemented projection. -/
theorem Select.step_with_variant_value_shape (self : Select) (ctx : StepContext)
    (vv : Option Key) :
    (∃ s, self.step_with_variant_value ctx vv = Except.ok s) ∨
    self.step_with_variant_value ctx vv = Except.error "TODO: Not implemented" := by
  unfold Select.step_with_variant_value
  rcases self.select_literal_shape ctx self.subject vv with ⟨o, ho⟩ | he
  · cases o with
    | some lv =>
      simp only [ho]
      exact Or.inl ⟨_, rfl⟩
    | none =>
      simp only [ho]
      exact self.task_phase_shape ctx vv _ [] []
  · simp only [he]
    exact Or.inr trivial

/-- The variant gate either returns or aborts in an unimplemented
projection. -/
theorem Select.step_with_variants_shape (self : Select) (ctx : StepContext)
    (vars : Variants) :
    (∃ s, self.step_with_variants ctx vars = Except.ok s) ∨
    self.step_with_variants ctx vars = Except.error "TODO: Not implemented" := by
  unfold Select.step_with_variants
  cases hk : self.selector.variant_key with
  | none =>
    simp only [hk]
    exact self.step_with_variant_value_shape ctx none
  | some k =>
    simp only [hk]
    cases hf : (vars.find? (fun p => p.1 == k)).map Prod.snd with
    | none =>
      simp only [hf]
      exact Or.inl ⟨_, rfl⟩
    | some v =>
      simp only [hf]
      exact self.step_with_variant_value_shape ctx (some v)

/-- Select::step either returns a State or aborts in one of the two
unimplemented panic sites (projection or variant merge). -/
theorem Select.step_shape (self : Select) (ctx : StepContext) :
    (∃ s, self.step ctx = Except.ok s) ∨
    self.step ctx = Except.error "TODO: Not implemented" ∨
    self.step ctx = Except.error "TODO: merging variants is not yet implemented" := by
  unfold Select.step
  cases hb : (self.subject.type_id == ctx.type_address &&
      self.selector.product != ctx.type_has_variants) with
  | false =>
    simp only [hb, Bool.false_eq_true, if_false]
    rcases self.step_with_variants_shape ctx self.variants with h | h
    · exact Or.inl h
    · exact Or.inr (Or.inl h)
  | true =>
    simp only [hb, if_true]
    cases hget : ctx.get (self.variants_node ctx) with
    | none =>
      simp only [hget]
      exact Or.inl ⟨_, rfl⟩
    | some c =>
      cases c with
      | Return v =>
        simp only [hget]
        exact Or.inr (Or.inr trivial)
      | Noop r c =>
        simp only [hget]
        rcases self.step_with_variants_shape ctx self.variants with h | h
        · exact Or.inl h
        · exact Or.inr (Or.inl h)
      | Throw m =>
        simp only [hget]
        exact Or.inl ⟨_, rfl⟩

/-- The SelectDependencies loop always returns a State. -/
theorem SelectDependencies.deps_loop_ok (self : SelectDependencies) (ctx : StepContext)
    (l deps0 : List Node) (acc : List Key) :
    ∃ s, self.deps_loop ctx l deps0 acc = Except.ok s := by
  induction l generalizing deps0 acc with
  | nil =>
    by_cases h : deps0.length > 0
    · exact ⟨State.Waiting deps0, by simp [SelectDependencies.deps_loop, h]⟩
    · exact ⟨State.Complete (Complete.Return (ctx.store_list acc)),
        by simp [SelectDependencies.deps_loop, h]⟩
  | cons d rest ih =>
    rw [SelectDependencies.deps_loop_cons]
    cases hget : ctx.get d with
    | none =>
      simp only [hget]
      exact ih (deps0 ++ [d]) acc
    | some c =>
      cases c with
      | Return v =>
        simp only [hget]
        exact ih deps0 (acc ++ [v])
      | Noop r c =>
        simp only [hget]
        exact ⟨_, rfl⟩
      | Throw m =>
        simp only [hget]
        exact ⟨_, rfl⟩

/-- SelectDependencies::step always returns a State. -/
theorem selectDependencies_step_ok (self : SelectDependencies) (ctx : StepContext) :
    ∃ s, self.step ctx = Except.ok s := by
  unfold SelectDependencies.step
  cases hget : ctx.get self.dep_product_node with
  | none =>
    simp only [hget]
    exact ⟨_, rfl⟩
  | some c =>
    cases c with
    | Return v =>
      simp only [hget]
      exact self.deps_loop_ok ctx _ [] []
    | Noop r c =>
      simp only [hget]
      exact ⟨_, rfl⟩
    | Throw m =>
      simp only [hget]
      exact ⟨_, rfl⟩

/-- ProjectField::step always returns a State. -/
theorem projectField_step_ok (self : ProjectField) (ctx : StepContext) :
    ∃ s, self.step ctx = Except.ok s := by
  unfold ProjectField.step
  cases hget : ctx.get self.input_node with
  | none =>
    simp only [hget]
    exact ⟨_, rfl⟩
  | some c =>
    cases c with
    | Return v =>
      simp only [hget]
      exact ⟨_, rfl⟩
    | Noop r c =>
      simp only [hget]
      exact ⟨_, rfl⟩
    | Throw m =>
      simp only [hget]
      exact ⟨_, rfl⟩

/-- SelectProjection::step always returns a State. -/
theorem selectProjection_step_ok (self : SelectProjection) (ctx : StepContext) :
    ∃ s, self.step ctx = Except.ok s := by
  unfold SelectProjection.step
  cases hget : ctx.get self.input_node with
  | none =>
    simp only [hget]
    exact ⟨_, rfl⟩
  | some c =>
    cases c with
    | Return ps =>
      cases hout : ctx.get (self.output_node ps) with
      | none =>
        simp only [hget, hout]
        exact ⟨_, rfl⟩
      | some c2 =>
        cases c2 with
        | Return v =>
          simp only [hget, hout]
          exact ⟨_, rfl⟩
        | Noop r c =>
          simp only [hget, hout]
          exact ⟨_, rfl⟩
        | Throw m =>
          simp only [hget, hout]
          exact ⟨_, rfl⟩
    | Noop r c =>
      simp only [hget]
      exact ⟨_, rfl⟩
    | Throw m =>
      simp only [hget]
      exact ⟨_, rfl⟩

/-- The Task clause loop always returns a State. -/
theorem Task.clause_loop_ok (self : Task) (ctx : StepContext)
    (l : List Selector) (deps0 : List Node) (acc : List Key) :
    ∃ s, self.clause_loop ctx l deps0 acc = Except.ok s := by
  induction l generalizing deps0 acc with
  | nil =>
    cases hd : deps0.isEmpty with
    | true =>
      exact ⟨State.Runnable ⟨self.selector.func, acc.map Arg.Value, self.selector.cacheable⟩,
        by simp [Task.clause_loop, hd]⟩
    | false => exact ⟨State.Waiting deps0, by simp [Task.clause_loop, hd]⟩
  | cons s rest ih =>
    rw [Task.clause_loop_cons]
    cases hget : ctx.get (self.clause_node s) with
    | none =>
      simp only [hget]
      exact ih (deps0 ++ [self.clause_node s]) acc
    | some c =>
      cases c with
      | Return v =>
        simp only [hget]
        exact ih deps0 (acc ++ [v])
      | Noop r c =>
        simp only [hget]
        exact ⟨_, rfl⟩
      | Throw m =>
        simp only [hget]
        exact ⟨_, rfl⟩

/-- Task::step always returns a State. -/
theorem task_step_ok (self : Task) (ctx : StepContext) :
    ∃ s, self.step ctx = Except.ok s :=
  self.clause_loop_ok ctx self.selector.clause [] []

/-- C2 counterexample to the claim as stated: step has reachable panic
branches. A Select on an address-typed subject whose variants sub-select
returned reaches the unimplemented variant merge; a Select on a subject
the host deems a has-products instance reaches the unimplemented
products projection. In both cases no State is returned. -/
theorem c2_counterexample :
    (Select.mk kAddrSub [] ⟨dP, none⟩).step ctxCE2 =
      Except.error "TODO: merging variants is not yet implemented" ∧
    (Select.mk kSub [] ⟨dP, none⟩).step ctxCE2p =
      Except.error "TODO: Not implemented" :=
  ⟨rfl, rfl⟩

/-- C2 (amended): step is a pure total function of the node and the
completion map — in this embedding it is a Lean function, so it has no
side effects on either — and on every input it either returns a State
or aborts in one of exactly two unimplemented panic sites of the source
(the TODO field projections and the TODO variant merge); no other
abort exists. -/
theorem c2_step_total_amended (n : Node) (ctx : StepContext) :
    (∃ s, n.step ctx = Except.ok s) ∨
    n.step ctx = Except.error "TODO: Not implemented" ∨
    n.step ctx = Except.error "TODO: merging variants is not yet implemented" := by
  cases n with
  | Select x => exact x.step_shape ctx
  | SelectLiteral x => exact Or.inl ⟨_, rfl⟩
  | SelectDependencies x => exact Or.inl (selectDependencies_step_ok x ctx)
  | ProjectField x => exact Or.inl (projectField_step_ok x ctx)
  | SelectProjection x => exact Or.inl (selectProjection_step_ok x ctx)
  | Task x => exact Or.inl (task_step_ok x ctx)

/-- C10 witness: with a host issubclass that always answers false, a
Select whose product is the subject type returns the subject, and
isinstance is true on the exact pair. -/
theorem c10_witness :
    (mkCtx (fun _ => none) (mkTasks [] [] (fun _ _ => false)
      (fun _ _ => []))).isinstance kSub dT = true ∧
    (Select.mk kSub [] ⟨dT, none⟩).step
      (mkCtx (fun _ => none) (mkTasks [] [] (fun _ _ => false) (fun _ _ => []))) =
      Except.ok (State.Complete (Complete.Return kSub)) := by
  constructor
  · exact c10_isinstance_reflexive.1 _ kSub dT rfl
  · exact c10_isinstance_reflexive.2 (Select.mk kSub [] ⟨dT, none⟩) _ rfl rfl
      (Or.inl (by decide))

end Engine
